import Mathlib

/-!
# Framework/main.cpp : settings loader, exchange-list splitter and the three decision loops

A shallow embedding of `src/Framework/main.cpp`.

* C++ `std::string` is a list of characters (`Str`).
* `double` values are idealised as exact rationals; the library conversion `std::stod`
  is a parameter of `parseUserSettings`, so nothing proved about the loader depends on
  how a floating-point literal is read.
* `std::stoi` is modelled in full (leading white space, optional sign, decimal digits,
  trailing characters ignored, 32-bit range check).
* The functions declared in the missing headers (`pullAllTicker`, `symbolHashMapResize`,
  `ArbDetect`, `amountOptControl*`, `CheckPointInfo`, the graph getters, the clock) are
  fields of a `Collab` record acting on an abstract world `W`; every call a loop makes is
  recorded, with its arguments, in a trace of `Call` events. The statements about the
  order of calls tie the trace to the world with `Replays`: the world a loop reaches is
  the one obtained by making exactly the calls of the trace, as recorded, in order.
* The two `while (true)` loops never return; `mainArbOnly` and `mainTimeMode` take the
  number of passes to run and give the state and trace reached after that many passes.
-/

set_option autoImplicit false

namespace Framework

/-- A `std::string`. -/
abbrev Str := List Char

/-- The exceptions the standard library raises in `parseUserSettings`. -/
inductive StdError where
  | invalid_argument
  | out_of_range
  deriving DecidableEq, Repr

/-- The struct `UserInput`. -/
structure UserInput where
  pathLen : Int
  startCoin : Str
  tradeAmt : ℚ
  exchangeRemove : Str
  lowerBound : ℚ
  coinReq : Int
  volReq : ℚ
  debugMode : Bool
  timeMode : Bool
  orderBookDepth : Int
  deriving DecidableEq, Repr

/-! ## Standard-library pieces used by the loader -/

/-- `std::getline(is, str, delim)` on the unread characters `input` of a stream: the
characters before the first `delim` are extracted, the delimiter is consumed, and the
remaining unread characters are returned second. On an exhausted stream nothing is
extracted and the target string stays empty. -/
def getline (input : Str) (delim : Char) : Str × Str :=
  (input.takeWhile (fun c => !decide (c = delim)),
   (input.dropWhile (fun c => !decide (c = delim))).drop 1)

/-- The loop `while (getline(file, line))`: the successive values of `line`. The call
fails, ending the loop, exactly when no unread character is left. Every round consumes
at least one character, so `file.length` rounds are enough (see `readLines`). -/
def readLinesFuel : Nat → Str → List Str
  | 0, _ => []
  | fuel + 1, file =>
    if file = [] then []
    else (getline file '\n').1 :: readLinesFuel fuel (getline file '\n').2

/-- The lines `parseUserSettings` reads from a file with the given content (a file that
cannot be opened reads as the empty content). -/
def readLines (file : Str) : List Str :=
  readLinesFuel file.length file

/-- The `unordered_map<string, string> values`, as an association list with one entry
per key. -/
abbrev Values := List (Str × Str)

/-- The assignment `values[key] = value`: overwrite the entry of `key` or add one. -/
def Values.set : Values → Str → Str → Values
  | [], key, value => [(key, value)]
  | (k, v) :: m, key, value =>
    if k = key then (k, value) :: m else (k, v) :: Values.set m key value

/-- The read `values[key]`: the stored value, or the empty string that `operator[]`
default-constructs for a key that is absent. -/
def Values.get : Values → Str → Str
  | [], _ => []
  | (k, v) :: m, key => if k = key then v else Values.get m key

/-- One round of the loader's loop body: `getline(iss, key, '=')` then
`getline(iss, value)` on the line. -/
def parseLine (line : Str) : Str × Str :=
  ((getline line '=').1, (getline (getline line '=').2 '\n').1)

/-- The whole loop of the loader over the lines read: `values[key] = value` per line. -/
def buildValues (lines : List Str) : Values :=
  lines.foldl (fun values line => Values.set values (parseLine line).1 (parseLine line).2) []

/-- The C `isspace` in the "C" locale. -/
def isspace (c : Char) : Bool :=
  c = ' ' || c = '\t' || c = '\n' || c = '\x0b' || c = '\x0c' || c = '\r'

/-- The C `isdigit`. -/
def isdigit (c : Char) : Bool :=
  decide ('0' ≤ c) && decide (c ≤ '9')

/-- The value of a run of decimal digits. -/
def digitsValue (ds : Str) : Nat :=
  ds.foldl (fun acc c => 10 * acc + (c.toNat - 48)) 0

/-- The optional sign `strtol` accepts: whether it is a minus, and the text after it. -/
def takeSign : Str → Bool × Str
  | [] => (false, [])
  | c :: rest =>
    if c = '-' then (true, rest)
    else if c = '+' then (false, rest)
    else (false, c :: rest)

def INT_MIN : Int := -2147483648

def INT_MAX : Int := 2147483647

/-- The call `strtol(s, &end, 10)` as `std::stoi` uses it: white space is skipped, an
optional sign and the longest run of digits are taken, what follows is ignored; `none`
when there is no digit (no conversion, `end == s`). The value is exact; fitting it in a
machine integer is left to `stoi`. -/
def strtol (s : Str) : Option Int :=
  let body := takeSign (s.dropWhile isspace)
  let ds := body.2.takeWhile isdigit
  if ds = [] then none
  else some (if body.1 then -(digitsValue ds : Int) else (digitsValue ds : Int))

/-- The call `std::stoi(s)` (base 10, no position argument): no conversion is
`invalid_argument`, a value that does not fit `int` is `out_of_range`. -/
def stoi (s : Str) : Except StdError Int :=
  match strtol s with
  | none => Except.error StdError.invalid_argument
  | some v =>
    if v < INT_MIN ∨ INT_MAX < v then Except.error StdError.out_of_range
    else Except.ok v

/-- `s.at(0)`. -/
def at0 : Str → Except StdError Char
  | [] => Except.error StdError.out_of_range
  | c :: _ => Except.ok c

/-! ## parseUserSettings -/

def kPathLen : Str := "pathLen".toList
def kStartCoin : Str := "startCoin".toList
def kTradeAmt : Str := "tradeAmt".toList
def kExchangeRemove : Str := "exchangeRemove".toList
def kLowerBound : Str := "lowerBound".toList
def kCoinReq : Str := "coinReq".toList
def kVolReq : Str := "volReq".toList
def kDebugMode : Str := "debugMode".toList
def kTimeMode : Str := "timeMode".toList
def kOrderBookDepth : Str := "orderBookDepth".toList

/-- The body of `parseUserSettings` after the reading loop: the ten assignments, in the
order of the source; the first exception raised ends the function. -/
def fillUserInput (stod : Str → Except StdError ℚ) (values : Values) :
    Except StdError UserInput := do
  let pathLen ← stoi (values.get kPathLen)
  let startCoin := values.get kStartCoin
  let tradeAmt ← stod (values.get kTradeAmt)
  let exchangeRemove := values.get kExchangeRemove
  let lowerBound ← stod (values.get kLowerBound)
  let coinReq ← stoi (values.get kCoinReq)
  let volReq ← stod (values.get kVolReq)
  let d ← at0 (values.get kDebugMode)
  let debugMode := if d = '1' then true else false
  let t ← at0 (values.get kTimeMode)
  let timeMode := if t = '1' then true else false
  let orderBookDepth ← stoi (values.get kOrderBookDepth)
  return { pathLen := pathLen, startCoin := startCoin, tradeAmt := tradeAmt,
           exchangeRemove := exchangeRemove, lowerBound := lowerBound, coinReq := coinReq,
           volReq := volReq, debugMode := debugMode, timeMode := timeMode,
           orderBookDepth := orderBookDepth }

/-- `parseUserSettings` on a settings file with the given content; `stod` is the
library's string-to-double conversion. -/
def parseUserSettings (stod : Str → Except StdError ℚ) (file : Str) :
    Except StdError UserInput :=
  fillUserInput stod (buildValues (readLines file))

/-- A string-to-double conversion for plain decimal literals
(`[space][sign]digits[.digits]`), exact on them; it stands for `std::stod` in the
concrete runs below, which only feed it such literals. -/
def decimalStod (s : Str) : Except StdError ℚ :=
  let body := takeSign (s.dropWhile isspace)
  let ip := body.2.takeWhile isdigit
  let rest := body.2.dropWhile isdigit
  let fp := match rest with
    | '.' :: r => r.takeWhile isdigit
    | _ => []
  if ip = [] ∧ fp = [] then Except.error StdError.invalid_argument
  else
    let m : ℚ := (digitsValue ip : ℚ) + (digitsValue fp : ℚ) / (10 : ℚ) ^ fp.length
    Except.ok (if body.1 then -m else m)

/-! ## removeExchanges -/

/-- The `unordered_set<string>`: a duplicate-free list; only membership is observable. -/
abbrev USet := List Str

/-- The member function `insert` of the set. -/
def USet.insert (set : USet) (x : Str) : USet :=
  if x ∈ set then set else x :: set

/-- Scan for `c`, the head of the list standing at index `i`. -/
def findFrom (c : Char) : Str → Nat → Option Nat
  | [], _ => none
  | x :: xs, i => if x = c then some i else findFrom c xs (i + 1)

/-- The call `s.find(c, pos)`: the index of the first `c` at or after `pos`; `none` is
`string::npos`. -/
def find (s : Str) (c : Char) (pos : Nat) : Option Nat :=
  findFrom c (s.drop pos) pos

/-- The call `s.substr(pos, len)`, `len = none` for the one-argument form; `none` is the
`out_of_range` the library raises when `pos > s.size()`. -/
def substr (s : Str) (pos : Nat) (len : Option Nat) : Option Str :=
  if s.length < pos then none
  else match len with
    | none => some (s.drop pos)
    | some n => some ((s.drop pos).take n)

/-- The `while (delimPos != string::npos)` loop of `removeExchanges` and the final
insertion, with a bound on the number of rounds. `none`: the bound was reached or
`substr` raised. -/
def removeExchangesLoop (s : Str) : Nat → Nat → Option Nat → USet → Option USet
  | _, startPos, none, exchangeVec =>
    (substr s startPos none).map (fun x => USet.insert exchangeVec x)
  | 0, _, some _, _ => none
  | fuel + 1, startPos, some delimPos, exchangeVec =>
    match substr s startPos (some (delimPos - startPos)) with
    | none => none
    | some x =>
      removeExchangesLoop s fuel (delimPos + 1) (find s '/' (delimPos + 1))
        (USet.insert exchangeVec x)

/-- The function `removeExchanges`; the loop is given `s.length` rounds. -/
def removeExchanges (s : Str) : Option USet :=
  removeExchangesLoop s s.length 0 (find s '/' 0) []

/-! ## The collaborators and the call trace -/

/-- One item sent to `cout`. -/
inductive OutItem where
  | str (s : String)
  | text (s : Str)
  | int (n : Int)
  | dbl (x : ℚ)
  | bool (b : Bool)
  | endl
  deriving DecidableEq

/-- A call made by `main` or by one of the loops, with its arguments (the graph, the
maps and the excluded exchanges, which every call shares, are left out) and, for the
cycle search, the sizing calls and the clock, the value returned. `profitability` in
`LogArbInfo` is `none` while the local variable has never been assigned. -/
inductive Call (TP : Type) where
  | buildSymbolHashMap
  | buildFeeMap
  | pullAllTicker (full : Bool)
  | symbolHashMapResize
  | seenSymbolsClear
  | ArbDetect (startCoin : Str) (lowerBound upperBound : ℚ) (pathLen : Int)
      (result : List TP)
  | amountOptControlMain (arbPath : List TP) (orderBookDepth : Int) (tradeAmt : ℚ)
      (result : ℚ)
  | amountOptControlDebug (arbPath : List TP) (orderBookDepth : Int) (tradeAmt : ℚ)
  | amountOptControlTime (arbPath : List TP) (orderBookDepth : Int) (tradeAmt : ℚ)
      (times : List ℚ) (result : ℚ)
  | LogArbInfo (arbPath : List TP) (startCoin : Str) (profitability : Option ℚ)
  | CheckPointInfo (frameworkIterations positiveArbs currIterations currArbsFound : Int)
  | printStars
  | printArbInfo (arbPath : List TP)
  | printArbProfitability (arbPath : List TP)
  | cout (items : List OutItem)
  | sleep (seconds : Nat)
  | clockNow (result : Int)
  deriving DecidableEq

/-- The functions of the headers that are not part of the file, acting on a world `W`
that holds the graph `g`, `symbolMap`, `seenSymbols`, `feeMap` and everything outside
the process. `CheckPointInfo` may take its counters by reference, so it returns them;
`amountOptControlTime` returns the `times` vector it was handed. -/
structure Collab (W TP : Type) where
  buildSymbolHashMap : W → W
  buildFeeMap : W → W
  pullAllTicker : Bool → USet → W → W
  symbolHashMapResize : W → W
  seenSymbolsClear : W → W
  ArbDetect : Str → ℚ → ℚ → Int → W → List TP × W
  amountOptControlMain : List TP → Int → ℚ → W → ℚ × W
  amountOptControlDebug : List TP → Int → ℚ → W → W
  amountOptControlTime : List TP → Int → ℚ → List ℚ → W → (ℚ × List ℚ) × W
  CheckPointInfo : Int → Int → Int → Int → W → (Int × Int × Int × Int) × W
  getVertexCount : W → Int
  getEdgeCount : W → Int
  now : W → Int × W

/-- The function `printUserInput`. -/
def printUserInput {TP : Type} (userInput : UserInput) : List (Call TP) :=
  [ Call.cout [OutItem.str "Arb Path Length: ", OutItem.int userInput.pathLen, OutItem.endl],
    Call.cout [OutItem.str "Start Crypto: ", OutItem.text userInput.startCoin, OutItem.endl],
    Call.cout [OutItem.str "Min Trade Amount: ", OutItem.dbl userInput.tradeAmt, OutItem.endl],
    Call.cout [OutItem.str "Removed exchanges: ", OutItem.text userInput.exchangeRemove,
      OutItem.endl],
    Call.cout [OutItem.str "Lower bound profitability: ", OutItem.dbl userInput.lowerBound,
      OutItem.endl],
    Call.cout [OutItem.str "Coin amount requested: ", OutItem.int userInput.coinReq,
      OutItem.endl],
    Call.cout [OutItem.str "Volume requested: ", OutItem.dbl userInput.volReq, OutItem.endl],
    Call.cout [OutItem.str "Debug mode: ", OutItem.bool userInput.debugMode, OutItem.endl],
    Call.cout [OutItem.str "Time mode: ", OutItem.bool userInput.timeMode, OutItem.endl],
    Call.cout [OutItem.str "Order book depth: ", OutItem.int userInput.orderBookDepth,
      OutItem.endl] ]

/-! ## The three loops -/

/-- What a running loop carries: the world and the calls made so far. -/
structure Run (W TP : Type) where
  world : W
  trace : List (Call TP)

/-- The lines shared by the three loop functions before their loop: the full refresh
`pullAllTicker(symbolMap, g, true, ...)`, `symbolHashMapResize` and
`seenSymbols.clear()`. -/
def setGraph {W TP : Type} (c : Collab W TP) (exchangeRemove : USet) (r : Run W TP) :
    Run W TP :=
  { world := c.seenSymbolsClear (c.symbolHashMapResize (c.pullAllTicker true exchangeRemove r.world)),
    trace := r.trace ++ [Call.pullAllTicker true, Call.symbolHashMapResize,
      Call.seenSymbolsClear] }

/-- The locals of `mainArbOnly`; `profitability` is declared without a value, which is
`none` here. -/
structure ArbOnlyState (W TP : Type) where
  run : Run W TP
  frameworkIterations : Int
  positiveArbs : Int
  currIterations : Int
  currArbsFound : Int
  profitability : Option ℚ
  arbPath : List TP

/-- One round of the `while (true)` of `mainArbOnly`. -/
def arbOnlyPass {W TP : Type} (c : Collab W TP) (userInput : UserInput)
    (exchangeRemove : USet) (s : ArbOnlyState W TP) : ArbOnlyState W TP :=
  let w1 := c.pullAllTicker false exchangeRemove s.run.world
  let found := c.ArbDetect userInput.startCoin (1 + userInput.lowerBound) (11 / 10)
    userInput.pathLen w1
  let arbPath := found.1
  let frameworkIterations := s.frameworkIterations + 1
  let currIterations := s.currIterations + 1
  let t1 := s.run.trace ++ [Call.pullAllTicker false,
    Call.ArbDetect userInput.startCoin (1 + userInput.lowerBound) (11 / 10)
      userInput.pathLen arbPath,
    Call.cout [OutItem.str "Iteration ", OutItem.int frameworkIterations, OutItem.str ": "]]
  let sized : (Option ℚ × Int × Int) × Run W TP :=
    if arbPath.length > 0 then
      let opt := c.amountOptControlMain arbPath userInput.orderBookDepth userInput.tradeAmt
        found.2
      ((some opt.1, s.positiveArbs + 1, s.currArbsFound + 1),
       { world := opt.2,
         trace := t1 ++ [Call.amountOptControlMain arbPath userInput.orderBookDepth
           userInput.tradeAmt opt.1] })
    else
      ((s.profitability, s.positiveArbs, s.currArbsFound), { world := found.2, trace := t1 })
  let profitability := sized.1.1
  let positiveArbs := sized.1.2.1
  let currArbsFound := sized.1.2.2
  let cp := c.CheckPointInfo frameworkIterations positiveArbs currIterations currArbsFound
    sized.2.world
  { run := { world := cp.2,
             trace := sized.2.trace ++ [Call.LogArbInfo arbPath userInput.startCoin profitability,
               Call.CheckPointInfo frameworkIterations positiveArbs currIterations
                 currArbsFound,
               Call.sleep 1] },
    frameworkIterations := cp.1.1,
    positiveArbs := cp.1.2.1,
    currIterations := cp.1.2.2.1,
    currArbsFound := cp.1.2.2.2,
    profitability := profitability,
    arbPath := arbPath }

/-- The state of `mainArbOnly` when its loop is first reached. -/
def arbOnlyInit {W TP : Type} (c : Collab W TP) (exchangeRemove : USet) (r : Run W TP) :
    ArbOnlyState W TP :=
  { run := setGraph c exchangeRemove r,
    frameworkIterations := 0, positiveArbs := 0, currIterations := 0, currArbsFound := 0,
    profitability := none, arbPath := [] }

/-- The function `mainArbOnly`, observed after `passes` rounds of its loop. -/
def mainArbOnly {W TP : Type} (c : Collab W TP) (userInput : UserInput)
    (exchangeRemove : USet) (r : Run W TP) : Nat → ArbOnlyState W TP
  | 0 => arbOnlyInit c exchangeRemove r
  | passes + 1 =>
    arbOnlyPass c userInput exchangeRemove (mainArbOnly c userInput exchangeRemove r passes)

/-- The locals of `mainDebugMode` that change in its loop (`need` stays 1). -/
structure DebugState (W TP : Type) where
  run : Run W TP
  found : Int
  iterations : Int
  arbPath : List TP

/-- One round of the `while (found < need)` of `mainDebugMode`. -/
def debugPass {W TP : Type} (c : Collab W TP) (userInput : UserInput)
    (exchangeRemove : USet) (s : DebugState W TP) : DebugState W TP :=
  let w1 := c.pullAllTicker false exchangeRemove s.run.world
  let found := c.ArbDetect userInput.startCoin (1 + userInput.lowerBound) (11 / 10)
    userInput.pathLen w1
  let arbPath := found.1
  let t1 := s.run.trace ++ [Call.sleep 2, Call.pullAllTicker false,
    Call.ArbDetect userInput.startCoin (1 + userInput.lowerBound) (11 / 10)
      userInput.pathLen arbPath]
  if arbPath.length > 0 then
    { run := { world := c.amountOptControlDebug arbPath userInput.orderBookDepth
                 userInput.tradeAmt found.2,
               trace := t1 ++ [
                 Call.cout [OutItem.str "Found Arb Path in ", OutItem.int s.iterations,
                   OutItem.str " iterations", OutItem.endl],
                 Call.printStars,
                 Call.cout [OutItem.endl],
                 Call.cout [OutItem.str "Arbitrage Path", OutItem.endl],
                 Call.printArbInfo arbPath,
                 Call.printArbProfitability arbPath,
                 Call.printStars,
                 Call.cout [OutItem.endl],
                 Call.printStars,
                 Call.cout [OutItem.str "Amount Optimization Debug Info", OutItem.endl],
                 Call.amountOptControlDebug arbPath userInput.orderBookDepth
                   userInput.tradeAmt,
                 Call.printStars] },
      found := s.found + 1,
      iterations := s.iterations,
      arbPath := arbPath }
  else
    { run := { world := found.2,
               trace := t1 ++ [
                 Call.cout [OutItem.str "Iteration ", OutItem.int s.iterations,
                   OutItem.str " found no arbitrage path", OutItem.endl]] },
      found := s.found,
      iterations := s.iterations + 1,
      arbPath := arbPath }

/-- The lines of `mainDebugMode` before the graph is set: the settings, framed by stars. -/
def debugBanner {TP : Type} (userInput : UserInput) : List (Call TP) :=
  [Call.printStars, Call.cout [OutItem.str "UserInput:", OutItem.endl]]
    ++ printUserInput userInput ++ [Call.printStars, Call.cout [OutItem.endl]]

/-- The lines of `mainDebugMode` between the setting of the graph and the loop. -/
def debugGraphStats {W TP : Type} (c : Collab W TP) (userInput : UserInput) (w : W) :
    List (Call TP) :=
  [Call.printStars,
   Call.cout [OutItem.str "Graph Stats:", OutItem.endl],
   Call.cout [OutItem.str "Number of vertices: ", OutItem.int (c.getVertexCount w),
     OutItem.endl],
   Call.cout [OutItem.str "Number of edges: ", OutItem.int (c.getEdgeCount w), OutItem.endl],
   Call.printStars,
   Call.cout [OutItem.endl],
   Call.printStars,
   Call.cout [OutItem.str "Performing Arb Finder from ", OutItem.text userInput.startCoin,
     OutItem.endl],
   Call.printStars]

/-- The state of `mainDebugMode` when its loop is first reached. -/
def debugInit {W TP : Type} (c : Collab W TP) (userInput : UserInput)
    (exchangeRemove : USet) (r : Run W TP) : DebugState W TP :=
  let r2 := setGraph c exchangeRemove
    { world := r.world, trace := r.trace ++ debugBanner userInput }
  { run := { world := r2.world,
             trace := r2.trace ++ debugGraphStats c userInput r2.world },
    found := 0,
    iterations := 1,
    arbPath := [] }

/-- The `while (found < need)` of `mainDebugMode` with `need = 1`, run for at most `fuel`
rounds. -/
def debugLoop {W TP : Type} (c : Collab W TP) (userInput : UserInput)
    (exchangeRemove : USet) : Nat → DebugState W TP → DebugState W TP
  | 0, s => s
  | fuel + 1, s =>
    if s.found < 1 then debugLoop c userInput exchangeRemove fuel
      (debugPass c userInput exchangeRemove s)
    else s

/-- The function `mainDebugMode`, its loop run for at most `fuel` rounds; it has returned
when `found` is no longer below 1. -/
def mainDebugMode {W TP : Type} (c : Collab W TP) (userInput : UserInput)
    (exchangeRemove : USet) (r : Run W TP) (fuel : Nat) : DebugState W TP :=
  debugLoop c userInput exchangeRemove fuel (debugInit c userInput exchangeRemove r)

/-- The locals of `mainTimeMode`. -/
structure TimeState (W TP : Type) where
  run : Run W TP
  iterations : Int
  foundPaths : Int
  profitability : Option ℚ
  arbPath : List TP

/-- One round of the `while (true)` of `mainTimeMode`. The clock is read around the two
calls; `times` starts as four zeros in every round. -/
def timePass {W TP : Type} (c : Collab W TP) (userInput : UserInput)
    (exchangeRemove : USet) (s : TimeState W TP) : TimeState W TP :=
  let t0 : List (Call TP) := s.run.trace ++
    (if s.iterations % 100 = 0 then
      [Call.cout [OutItem.int s.iterations, OutItem.str " Iterations Check Point: "],
       Call.cout [OutItem.int s.foundPaths, OutItem.str " profitable paths found",
         OutItem.endl]]
     else [])
  let start1 := c.now s.run.world
  let w1 := c.pullAllTicker false exchangeRemove start1.2
  let end1 := c.now w1
  let start2 := c.now end1.2
  let found := c.ArbDetect userInput.startCoin (1 + userInput.lowerBound) (11 / 10)
    userInput.pathLen start2.2
  let arbPath := found.1
  let end2 := c.now found.2
  let times : List ℚ := [((end1.1 - start1.1 : Int) : ℚ), ((end2.1 - start2.1 : Int) : ℚ), 0, 0]
  let t1 := t0 ++ [Call.clockNow start1.1, Call.pullAllTicker false, Call.clockNow end1.1,
    Call.clockNow start2.1,
    Call.ArbDetect userInput.startCoin (1 + userInput.lowerBound) (11 / 10)
      userInput.pathLen arbPath,
    Call.clockNow end2.1]
  let sized : (Option ℚ × Int × List ℚ) × Run W TP :=
    if arbPath.length > 0 then
      let opt := c.amountOptControlTime arbPath userInput.orderBookDepth userInput.tradeAmt
        times end2.2
      ((some opt.1.1, s.foundPaths + 1, opt.1.2),
       { world := opt.2,
         trace := t1 ++ [Call.amountOptControlTime arbPath userInput.orderBookDepth
           userInput.tradeAmt times opt.1.1] })
    else
      ((s.profitability, s.foundPaths, times), { world := end2.2, trace := t1 })
  let profitability := sized.1.1
  let times2 := sized.1.2.2
  let t2 := sized.2.trace ++ [
    Call.cout [OutItem.str "Iter ", OutItem.int s.iterations, OutItem.str ": "],
    Call.cout [OutItem.str "Ticker_t=", OutItem.dbl (times2.getD 0 0), OutItem.str " ms, "],
    Call.cout [OutItem.str "ArbFind_t=", OutItem.dbl (times2.getD 1 0), OutItem.str " ms, "],
    Call.cout [OutItem.str "OrdBook_t=", OutItem.dbl (times2.getD 2 0), OutItem.str " ms, "],
    Call.cout [OutItem.str "OptAmt_t=", OutItem.dbl (times2.getD 3 0), OutItem.str " ms",
      OutItem.endl]]
  let t3 := t2 ++
    (if arbPath.length > 0 then
      [Call.cout [OutItem.str "\t-"],
       Call.LogArbInfo arbPath userInput.startCoin profitability]
     else [])
  { run := { world := sized.2.world, trace := t3 ++ [Call.sleep 1] },
    iterations := s.iterations + 1,
    foundPaths := sized.1.2.1,
    profitability := profitability,
    arbPath := arbPath }

/-- The state of `mainTimeMode` when its loop is first reached. -/
def timeInit {W TP : Type} (c : Collab W TP) (exchangeRemove : USet) (r : Run W TP) :
    TimeState W TP :=
  { run := setGraph c exchangeRemove r,
    iterations := 1, foundPaths := 0, profitability := none, arbPath := [] }

/-- The function `mainTimeMode`, observed after `passes` rounds of its loop. -/
def mainTimeMode {W TP : Type} (c : Collab W TP) (userInput : UserInput)
    (exchangeRemove : USet) (r : Run W TP) : Nat → TimeState W TP
  | 0 => timeInit c exchangeRemove r
  | passes + 1 =>
    timePass c userInput exchangeRemove (mainTimeMode c userInput exchangeRemove r passes)

/-! ## main -/

/-- Which of the three loop functions `main` calls. -/
inductive Loop where
  | mainDebugMode
  | mainTimeMode
  | mainArbOnly
  deriving DecidableEq, Repr

/-- The `if / else if / else` at the end of `main`. -/
def selectLoop (userInput : UserInput) : Loop :=
  if userInput.debugMode then Loop.mainDebugMode
  else if userInput.timeMode then Loop.mainTimeMode
  else Loop.mainArbOnly

/-- The run `main` hands to the loop it calls. -/
def mainStart {W TP : Type} (c : Collab W TP) (w : W) : Run W TP :=
  { world := c.buildFeeMap (c.buildSymbolHashMap w),
    trace := [Call.buildSymbolHashMap, Call.buildFeeMap] }

/-- The function `main` on a settings file with the given content, its loop observed
after `passes` rounds: the loop entered and the calls made, or the exception that left
`main` before any call. -/
def main {W TP : Type} (stod : Str → Except StdError ℚ) (c : Collab W TP) (file : Str)
    (w : W) (passes : Nat) : Except StdError (Loop × Run W TP) :=
  match parseUserSettings stod file with
  | Except.error e => Except.error e
  | Except.ok userInput =>
    match removeExchanges userInput.exchangeRemove with
    | none => Except.error StdError.out_of_range
    | some exchangeRemove =>
      let r : Run W TP := mainStart c w
      match selectLoop userInput with
      | Loop.mainDebugMode =>
        Except.ok (Loop.mainDebugMode, (mainDebugMode c userInput exchangeRemove r passes).run)
      | Loop.mainTimeMode =>
        Except.ok (Loop.mainTimeMode, (mainTimeMode c userInput exchangeRemove r passes).run)
      | Loop.mainArbOnly =>
        Except.ok (Loop.mainArbOnly, (mainArbOnly c userInput exchangeRemove r passes).run)

/-! ## Vocabulary of the statements -/

/-- Whether some line reads `key=value`: it starts with the key followed by `=`. -/
def hasSetting (lines : List Str) (key : Str) : Bool :=
  lines.any (fun line => decide (line.take (key.length + 1) = key ++ ['=']))

/-- The eight settings whose text goes through `stoi`, `stod` or `at(0)`. -/
def parsedSettings : List Str :=
  [kPathLen, kTradeAmt, kLowerBound, kCoinReq, kVolReq, kDebugMode, kTimeMode,
   kOrderBookDepth]

/-- The three integer settings. -/
def integerSettings : List Str :=
  [kPathLen, kCoinReq, kOrderBookDepth]

/-- A text that is, in its entirety, a decimal integer: an optional sign and one or more
digits, nothing else. -/
def wellFormedInteger (s : Str) : Bool :=
  decide ((takeSign s).2 ≠ []) && (takeSign s).2.all isdigit

/-- A text that begins, after optional white space and an optional sign, with a digit. -/
def startsWithInteger (s : Str) : Bool :=
  match (takeSign (s.dropWhile isspace)).2 with
  | c :: _ => isdigit c
  | [] => false

/-- A load that succeeded with a configuration satisfying `p`. -/
def loadsWith (r : Except StdError UserInput) (p : UserInput → Bool) : Bool :=
  match r with
  | Except.ok u => p u
  | Except.error _ => false

/-- A complete settings file. -/
def fileComplete : Str :=
  ("pathLen=3\nstartCoin=USDT\ntradeAmt=100\nexchangeRemove=kucoin/gemini\n" ++
   "lowerBound=0.005\ncoinReq=5\nvolReq=1000\ndebugMode=0\ntimeMode=0\n" ++
   "orderBookDepth=20\n").toList

/-- The complete file without its `startCoin` and `exchangeRemove` lines. -/
def fileNoStartCoin : Str :=
  ("pathLen=3\ntradeAmt=100\n" ++
   "lowerBound=0.005\ncoinReq=5\nvolReq=1000\ndebugMode=0\ntimeMode=0\n" ++
   "orderBookDepth=20\n").toList

/-- The complete file without its `pathLen` line. -/
def fileNoPathLen : Str :=
  ("startCoin=USDT\ntradeAmt=100\nexchangeRemove=kucoin/gemini\n" ++
   "lowerBound=0.005\ncoinReq=5\nvolReq=1000\ndebugMode=0\ntimeMode=0\n" ++
   "orderBookDepth=20\n").toList

/-- The complete file with text after the digits of `pathLen`. -/
def fileTrailingText : Str :=
  ("pathLen=3abc\nstartCoin=USDT\ntradeAmt=100\nexchangeRemove=kucoin/gemini\n" ++
   "lowerBound=0.005\ncoinReq=5\nvolReq=1000\ndebugMode=0\ntimeMode=0\n" ++
   "orderBookDepth=20\n").toList

/-- The complete file with `pathLen` that is no number at all. -/
def fileNoNumber : Str :=
  ("pathLen=three\nstartCoin=USDT\ntradeAmt=100\nexchangeRemove=kucoin/gemini\n" ++
   "lowerBound=0.005\ncoinReq=5\nvolReq=1000\ndebugMode=0\ntimeMode=0\n" ++
   "orderBookDepth=20\n").toList

/-- The complete file with `pathLen=1` and `orderBookDepth=0`. -/
def fileSmallInts : Str :=
  ("pathLen=1\nstartCoin=USDT\ntradeAmt=100\nexchangeRemove=kucoin/gemini\n" ++
   "lowerBound=0.005\ncoinReq=5\nvolReq=1000\ndebugMode=0\ntimeMode=0\n" ++
   "orderBookDepth=0\n").toList

/-- The complete file with both mode flags set. -/
def fileBothFlags : Str :=
  ("pathLen=3\nstartCoin=USDT\ntradeAmt=100\nexchangeRemove=kucoin/gemini\n" ++
   "lowerBound=0.005\ncoinReq=5\nvolReq=1000\ndebugMode=1\ntimeMode=1\n" ++
   "orderBookDepth=20\n").toList

/-- A small world for concrete runs: the world is a counter of refreshes, a cycle
`[1, 2, 3]` shows up from the third refresh on, and sizing returns the counter. -/
def demoCollab : Collab Nat Nat :=
  { buildSymbolHashMap := fun w => w,
    buildFeeMap := fun w => w,
    pullAllTicker := fun _ _ w => w + 1,
    symbolHashMapResize := fun w => w,
    seenSymbolsClear := fun w => w,
    ArbDetect := fun _ _ _ _ w => (if 3 ≤ w then [1, 2, 3] else [], w),
    amountOptControlMain := fun _ _ _ w => ((w : ℚ), w),
    amountOptControlDebug := fun _ _ _ w => w,
    amountOptControlTime := fun _ _ _ times w => (((w : ℚ), times), w),
    CheckPointInfo := fun a b c d w => ((a, b, c, d), w),
    getVertexCount := fun _ => 0,
    getEdgeCount := fun _ => 0,
    now := fun w => (0, w) }

/-- Equality of load results is decidable. -/
instance exceptDecEq : DecidableEq (Except StdError UserInput)
  | Except.ok a, Except.ok b =>
    if h : a = b then isTrue (by rw [h]) else isFalse (fun h2 => h (by cases h2; rfl))
  | Except.error a, Except.error b =>
    if h : a = b then isTrue (by rw [h]) else isFalse (fun h2 => h (by cases h2; rfl))
  | Except.ok _, Except.error _ => isFalse (fun h => by cases h)
  | Except.error _, Except.ok _ => isFalse (fun h => by cases h)

/-- The configuration `fileComplete` loads as. -/
def loadedComplete : UserInput :=
  { pathLen := 3, startCoin := "USDT".toList, tradeAmt := 100,
    exchangeRemove := "kucoin/gemini".toList, lowerBound := 1 / 200, coinReq := 5,
    volReq := 1000, debugMode := false, timeMode := false, orderBookDepth := 20 }

/-- The calls the ordering is about: graph refresh, cycle search and sizing. -/
def Call.isCore {TP : Type} : Call TP → Bool
  | Call.pullAllTicker _ => true
  | Call.ArbDetect _ _ _ _ _ => true
  | Call.amountOptControlMain _ _ _ _ => true
  | Call.amountOptControlDebug _ _ _ => true
  | Call.amountOptControlTime _ _ _ _ _ => true
  | _ => false

/-- The refresh, search and sizing calls of a trace, in order. -/
def coreCalls {TP : Type} (trace : List (Call TP)) : List (Call TP) :=
  trace.filter Call.isCore

/-- The refresh, search and sizing calls of one decision pass in which the search
returned `path`: a non-full refresh, the search, and the given sizing call when the
path is not empty. -/
def passCalls {TP : Type} (userInput : UserInput) (path : List TP) (sizing : Call TP) :
    List (Call TP) :=
  [Call.pullAllTicker false,
   Call.ArbDetect userInput.startCoin (1 + userInput.lowerBound) (11 / 10)
     userInput.pathLen path] ++
  (if path.length > 0 then [sizing] else [])

/-- The three calls that set the graph up: the full refresh, the pruning of the pair
universe and the clearing of the observed symbols. -/
def Call.isSetup {TP : Type} : Call TP → Bool
  | Call.pullAllTicker true => true
  | Call.symbolHashMapResize => true
  | Call.seenSymbolsClear => true
  | _ => false

/-- Console output: `cout` and the printing helpers. -/
def Call.isOutput {TP : Type} : Call TP → Bool
  | Call.cout _ => true
  | Call.printStars => true
  | Call.printArbInfo _ => true
  | Call.printArbProfitability _ => true
  | _ => false

/-- Which loop a sizing call belongs to: the silent variant to `mainArbOnly`, the verbose
one to `mainDebugMode`, the timed one to `mainTimeMode`; `none` for any other call. -/
def Call.sizingVariant {TP : Type} : Call TP → Option Loop
  | Call.amountOptControlMain _ _ _ _ => some Loop.mainArbOnly
  | Call.amountOptControlDebug _ _ _ => some Loop.mainDebugMode
  | Call.amountOptControlTime _ _ _ _ _ => some Loop.mainTimeMode
  | _ => none

/-- Whether a call is a cycle search. -/
def Call.isArbDetect {TP : Type} : Call TP → Bool
  | Call.ArbDetect _ _ _ _ _ => true
  | _ => false

/-- The profitability values handed to `LogArbInfo`, in order. -/
def loggedProfits {TP : Type} (trace : List (Call TP)) : List (Option ℚ) :=
  trace.filterMap (fun e => match e with
    | Call.LogArbInfo _ _ p => some p
    | _ => none)

/-- The values returned by `amountOptControlMain`, in order. -/
def sizingResults {TP : Type} (trace : List (Call TP)) : List ℚ :=
  trace.filterMap (fun e => match e with
    | Call.amountOptControlMain _ _ _ q => some q
    | _ => none)

/-- The paths returned by `ArbDetect`, in order. -/
def detectedPaths {TP : Type} (trace : List (Call TP)) : List (List TP) :=
  trace.filterMap (fun e => match e with
    | Call.ArbDetect _ _ _ _ path => some path
    | _ => none)

/-- Whether a call is a graph refresh, full or not. -/
def Call.isRefresh {TP : Type} : Call TP → Bool
  | Call.pullAllTicker _ => true
  | _ => false

/-- The entry `e` of a trace is a call really made on the world `w`: the collaborator
named by the entry, applied to the arguments of the entry (and to the excluded exchanges
`exchangeRemove`), returns the value the entry records and leaves the world `w'`.
Console output, logging and sleeping leave the world as it is. -/
def Call.Performs {W TP : Type} (c : Collab W TP) (exchangeRemove : USet) :
    Call TP → W → W → Prop
  | Call.buildSymbolHashMap, w, w' => w' = c.buildSymbolHashMap w
  | Call.buildFeeMap, w, w' => w' = c.buildFeeMap w
  | Call.pullAllTicker full, w, w' => w' = c.pullAllTicker full exchangeRemove w
  | Call.symbolHashMapResize, w, w' => w' = c.symbolHashMapResize w
  | Call.seenSymbolsClear, w, w' => w' = c.seenSymbolsClear w
  | Call.ArbDetect startCoin lowerBound upperBound pathLen result, w, w' =>
    result = (c.ArbDetect startCoin lowerBound upperBound pathLen w).1 ∧
    w' = (c.ArbDetect startCoin lowerBound upperBound pathLen w).2
  | Call.amountOptControlMain arbPath orderBookDepth tradeAmt result, w, w' =>
    result = (c.amountOptControlMain arbPath orderBookDepth tradeAmt w).1 ∧
    w' = (c.amountOptControlMain arbPath orderBookDepth tradeAmt w).2
  | Call.amountOptControlDebug arbPath orderBookDepth tradeAmt, w, w' =>
    w' = c.amountOptControlDebug arbPath orderBookDepth tradeAmt w
  | Call.amountOptControlTime arbPath orderBookDepth tradeAmt times result, w, w' =>
    result = (c.amountOptControlTime arbPath orderBookDepth tradeAmt times w).1.1 ∧
    w' = (c.amountOptControlTime arbPath orderBookDepth tradeAmt times w).2
  | Call.CheckPointInfo n1 n2 n3 n4, w, w' => w' = (c.CheckPointInfo n1 n2 n3 n4 w).2
  | Call.clockNow result, w, w' => result = (c.now w).1 ∧ w' = (c.now w).2
  | Call.LogArbInfo _ _ _, w, w' => w' = w
  | Call.printStars, w, w' => w' = w
  | Call.printArbInfo _, w, w' => w' = w
  | Call.printArbProfitability _, w, w' => w' = w
  | Call.cout _, w, w' => w' = w
  | Call.sleep _, w, w' => w' = w

/-- The trace is the complete and exact record of what was done to the world: started
on `w`, making the calls of the trace one after the other, each as `Call.Performs` says,
ends on `w'`. A collaborator applied without an entry, applied to other arguments than
its entry shows, or an entry without its call, breaks this for a general `c`. -/
def Replays {W TP : Type} (c : Collab W TP) (exchangeRemove : USet) :
    List (Call TP) → W → W → Prop
  | [], w, w' => w' = w
  | e :: es, w, w' =>
    ∃ w1, Call.Performs c exchangeRemove e w w1 ∧ Replays c exchangeRemove es w1 w'

/-- The paths found by the passes `mainDebugMode` makes in at most `n` rounds: `k` passes
with the empty path, then either nothing more, all `n` rounds being used, or one last
pass with a path that is not empty, which ends the loop. -/
def debugPaths {TP : Type} (n k : Nat) (last : List (List TP)) : Prop :=
  (last = [] ∧ k = n) ∨ (∃ p : List TP, p ≠ [] ∧ last = [p] ∧ k < n)

/-- The `times` vector `mainTimeMode` hands to `amountOptControlTime` in a round started
on the world `w`: the two measured durations, then two zeros. -/
def roundTimes {W TP : Type} (c : Collab W TP) (userInput : UserInput)
    (exchangeRemove : USet) (w : W) : List ℚ :=
  let start1 := c.now w
  let end1 := c.now (c.pullAllTicker false exchangeRemove start1.2)
  let start2 := c.now end1.2
  let end2 := c.now (c.ArbDetect userInput.startCoin (1 + userInput.lowerBound) (11 / 10)
    userInput.pathLen start2.2).2
  [((end1.1 - start1.1 : Int) : ℚ), ((end2.1 - start2.1 : Int) : ℚ), 0, 0]

/-- The calls the three set-up lines add. -/
def setupCalls {TP : Type} : List (Call TP) :=
  [Call.pullAllTicker true, Call.symbolHashMapResize, Call.seenSymbolsClear]

/-- The configuration `fileBothFlags` loads as. -/
def loadedBothFlags : UserInput :=
  { pathLen := 3, startCoin := "USDT".toList, tradeAmt := 100,
    exchangeRemove := "kucoin/gemini".toList, lowerBound := 1 / 200, coinReq := 5,
    volReq := 1000, debugMode := true, timeMode := true, orderBookDepth := 20 }

/-- A second small world: the world counts the refreshes, a cycle `[1, 2, 3]` is there
exactly when the count is even, and sizing returns the count. -/
def blinkCollab : Collab Nat Nat :=
  { buildSymbolHashMap := fun w => w,
    buildFeeMap := fun w => w,
    pullAllTicker := fun _ _ w => w + 1,
    symbolHashMapResize := fun w => w,
    seenSymbolsClear := fun w => w,
    ArbDetect := fun _ _ _ _ w => (if w % 2 = 0 then [1, 2, 3] else [], w),
    amountOptControlMain := fun _ _ _ w => ((w : ℚ), w),
    amountOptControlDebug := fun _ _ _ w => w,
    amountOptControlTime := fun _ _ _ times w => (((w : ℚ), times), w),
    CheckPointInfo := fun a b c d w => ((a, b, c, d), w),
    getVertexCount := fun _ => 0,
    getEdgeCount := fun _ => 0,
    now := fun w => (0, w) }

/-! # Lemmas -/

theorem Values.get_set (m : Values) (k v k' : Str) :
    (Values.set m k v).get k' = if k = k' then v else m.get k' := by
  induction m with
  | nil => simp [Values.set, Values.get]
  | cons p m ih =>
    obtain ⟨a, b⟩ := p
    by_cases h : a = k
    · subst h
      by_cases h2 : a = k' <;> simp [Values.set, Values.get, h2]
    · by_cases h2 : a = k'
      · subst h2
        simp [Values.set, Values.get, h, Ne.symm h]
      · simp [Values.set, Values.get, h, h2, ih]

/-- The loop of the loader started from any map. -/
theorem foldl_get_of_forall (lines : List Str) (init : Values) (k : Str) (P : Str → Prop)
    (hinit : P (init.get k))
    (h : ∀ l ∈ lines, (parseLine l).1 = k → P (parseLine l).2) :
    P ((lines.foldl (fun values line =>
      Values.set values (parseLine line).1 (parseLine line).2) init).get k) := by
  induction lines generalizing init with
  | nil => simpa using hinit
  | cons l ls ih =>
    simp only [List.foldl_cons]
    apply ih
    · rw [Values.get_set]
      by_cases hk : (parseLine l).1 = k
      · simp only [hk, if_true]
        exact h l (List.mem_cons_self _ _) hk
      · simp only [hk, if_false]
        exact hinit
    · intro l' hl' hk
      exact h l' (List.mem_cons_of_mem _ hl') hk

/-- A line is its key alone, or its key, an '=' and the rest. -/
theorem line_shape (line : Str) :
    (line = (parseLine line).1 ∧ (parseLine line).2 = []) ∨
    line = (parseLine line).1 ++ '=' :: (getline line '=').2 := by
  have h := List.takeWhile_append_dropWhile (fun c => !decide (c = '=')) line
  cases hd : line.dropWhile (fun c => !decide (c = '=')) with
  | nil =>
    left
    rw [hd, List.append_nil] at h
    refine ⟨by simp only [parseLine, getline]; exact h.symm, ?_⟩
    simp only [parseLine, getline, hd]
    rfl
  | cons x xs =>
    right
    have hx : x = '=' := by
      have := List.head_dropWhile_not (fun c => !decide (c = '=')) line
        (by rw [hd]; exact List.cons_ne_nil _ _)
      simp only [hd, List.head_cons] at this
      simpa using this
    subst hx
    simp only [parseLine, getline, hd, List.drop_one, List.tail_cons]
    rw [hd] at h
    exact h.symm

theorem take_key_eq (k r : Str) : List.take (k.length + 1) (k ++ '=' :: r) = k ++ ['='] := by
  rw [show k ++ '=' :: r = (k ++ ['=']) ++ r by simp]
  exact List.take_left' (by simp)

theorem get_eq_nil_of_not_hasSetting (lines : List Str) (k : Str)
    (h : hasSetting lines k = false) : (buildValues lines).get k = [] := by
  unfold buildValues
  apply foldl_get_of_forall lines [] k (fun v => v = [])
  · rfl
  · intro l hl hk
    rcases line_shape l with ⟨_, h2⟩ | h2
    · exact h2
    · exfalso
      rw [hk] at h2
      obtain ⟨r, hr⟩ : ∃ r, l = k ++ '=' :: r := ⟨_, h2⟩
      simp only [hasSetting, List.any_eq_false] at h
      apply h l hl
      rw [hr]
      exact decide_eq_true (take_key_eq k r)

theorem fillUserInput_ok_iff (stod : Str → Except StdError ℚ) (values : Values) (u : UserInput) :
    fillUserInput stod values = Except.ok u ↔
      stoi (values.get kPathLen) = Except.ok u.pathLen ∧
      u.startCoin = values.get kStartCoin ∧
      stod (values.get kTradeAmt) = Except.ok u.tradeAmt ∧
      u.exchangeRemove = values.get kExchangeRemove ∧
      stod (values.get kLowerBound) = Except.ok u.lowerBound ∧
      stoi (values.get kCoinReq) = Except.ok u.coinReq ∧
      stod (values.get kVolReq) = Except.ok u.volReq ∧
      (∃ d, at0 (values.get kDebugMode) = Except.ok d ∧ u.debugMode = decide (d = '1')) ∧
      (∃ t, at0 (values.get kTimeMode) = Except.ok t ∧ u.timeMode = decide (t = '1')) ∧
      stoi (values.get kOrderBookDepth) = Except.ok u.orderBookDepth := by
  obtain ⟨p, sc, ta, er, lb, cr, vr, dm, tm, ob⟩ := u
  simp only [fillUserInput, bind, Except.bind, pure, Except.pure]
  cases stoi (values.get kPathLen) <;>
  cases stod (values.get kTradeAmt) <;>
  cases stod (values.get kLowerBound) <;>
  cases stoi (values.get kCoinReq) <;>
  cases stod (values.get kVolReq) <;>
  cases at0 (values.get kDebugMode) <;>
  cases at0 (values.get kTimeMode) <;>
  cases stoi (values.get kOrderBookDepth) <;>
  simp [UserInput.mk.injEq]
  intro _
  constructor <;> rintro ⟨a, b, c, d, e, f, g, h, i⟩ <;>
    exact ⟨a.symm, b, c.symm, d, e, f, g.symm, h.symm, i⟩

theorem strtol_some_startsWith (s : Str) (v : Int) (h : strtol s = some v) :
    startsWithInteger s = true := by
  unfold strtol at h
  simp only at h
  split at h
  · cases h
  · rename_i hds
    unfold startsWithInteger
    cases hb : (takeSign (List.dropWhile isspace s)).2 with
    | nil => simp [hb] at hds
    | cons c cs =>
      simp only [hb, List.takeWhile_cons] at hds
      simp only
      by_contra hc
      simp [hc] at hds

theorem stoi_ok (s : Str) (v : Int) (h : stoi s = Except.ok v) :
    strtol s = some v ∧ INT_MIN ≤ v ∧ v ≤ INT_MAX := by
  unfold stoi at h
  cases hs : strtol s with
  | none => simp [hs] at h
  | some v0 =>
    simp only [hs] at h
    split at h
    · cases h
    · rename_i hr
      injection h with h
      subst h
      simp only [not_or, not_lt] at hr
      exact ⟨rfl, hr⟩

theorem isdigit_facts (c : Char) (h : isdigit c = true) :
    isspace c = false ∧ c ≠ '-' ∧ c ≠ '+' := by
  refine ⟨?_, ?_, ?_⟩
  · by_contra hc
    simp only [isspace, Bool.not_eq_false, Bool.or_eq_true, decide_eq_true_eq] at hc
    rcases hc with ((((hc | hc) | hc) | hc) | hc) | hc <;> subst hc <;> exact absurd h (by decide)
  · intro hc; subst hc; exact absurd h (by decide)
  · intro hc; subst hc; exact absurd h (by decide)

theorem startsWith_of_digit (c : Char) (cs : Str) (h : isdigit c = true) :
    startsWithInteger (c :: cs) = true := by
  obtain ⟨h1, h2, h3⟩ := isdigit_facts c h
  simp [startsWithInteger, List.dropWhile_cons, h1, takeSign, h2, h3, h]

theorem wellFormed_startsWith (s : Str) (h : wellFormedInteger s = true) :
    startsWithInteger s = true := by
  cases s with
  | nil => simp [wellFormedInteger, takeSign] at h
  | cons c cs =>
    by_cases hm : c = '-'
    · subst hm
      cases cs with
      | nil => simp [wellFormedInteger, takeSign] at h
      | cons d ds =>
        simp only [wellFormedInteger, takeSign, if_true, List.all_cons, Bool.and_eq_true] at h
        have hsp : isspace '-' = false := by decide
        simp [startsWithInteger, List.dropWhile_cons, hsp, takeSign, h.2.1]
    · by_cases hp : c = '+'
      · subst hp
        cases cs with
        | nil => simp [wellFormedInteger, takeSign] at h
        | cons d ds =>
          have hne : ('+' : Char) ≠ '-' := by decide
          simp only [wellFormedInteger, takeSign, if_neg hne, if_true, List.all_cons,
            Bool.and_eq_true] at h
          have hsp : isspace '+' = false := by decide
          simp [startsWithInteger, List.dropWhile_cons, hsp, takeSign, h.2.1]
      · simp only [wellFormedInteger, takeSign, if_neg hm, if_neg hp, List.all_cons,
          Bool.and_eq_true] at h
        exact startsWith_of_digit c cs h.2.1

theorem parse_error_of_not_ok (stod : Str → Except StdError ℚ) (file : Str)
    (h : ∀ u, parseUserSettings stod file ≠ Except.ok u) :
    ∃ e, parseUserSettings stod file = Except.error e := by
  cases hp : parseUserSettings stod file with
  | error e => exact ⟨e, rfl⟩
  | ok u => exact absurd hp (h u)

theorem main_error_of_parse_error {W TP : Type} (stod : Str → Except StdError ℚ)
    (c : Collab W TP) (file : Str) (w : W) (passes : Nat) (e : StdError)
    (h : parseUserSettings stod file = Except.error e) :
    main stod c file w passes = Except.error e := by
  unfold main
  rw [h]

theorem stoi_nil : stoi [] = Except.error StdError.invalid_argument := rfl

theorem at0_nil : at0 [] = Except.error StdError.out_of_range := rfl

/-- C3, as amended. When one of the eight settings that go through `stoi`, `stod` or
`at(0)` (pathLen, tradeAmt, lowerBound, coinReq, volReq, debugMode, timeMode,
orderBookDepth) has no `key=value` line, `parseUserSettings` raises and `main` ends with
that exception before any call of a loop, whatever the collaborators. (`stod` is any
conversion that rejects the empty string, as `std::stod` does.) The two settings that are
copied as text are not checked: when a loaded file has no `startCoin` line the start coin
is the empty string, and likewise for `exchangeRemove`. -/
theorem missing_parsed_setting_is_fatal (stod : Str → Except StdError ℚ)
    (hstod : ∀ x, stod [] ≠ Except.ok x) (file : Str) :
    (∀ key ∈ parsedSettings, hasSetting (readLines file) key = false →
      (∃ e, parseUserSettings stod file = Except.error e ∧
        ∀ (W TP : Type) (c : Collab W TP) (w : W) (passes : Nat),
          main stod c file w passes = Except.error e)) ∧
    (∀ u, parseUserSettings stod file = Except.ok u →
      (hasSetting (readLines file) kStartCoin = false → u.startCoin = []) ∧
      (hasSetting (readLines file) kExchangeRemove = false → u.exchangeRemove = [])) := by
  constructor
  · intro key hkey hmiss
    have hget := get_eq_nil_of_not_hasSetting (readLines file) key hmiss
    have hno : ∀ u, parseUserSettings stod file ≠ Except.ok u := by
      intro u hu
      unfold parseUserSettings at hu
      rw [fillUserInput_ok_iff] at hu
      obtain ⟨h1, _, h3, _, h5, h6, h7, ⟨d, h8, _⟩, ⟨t, h9, _⟩, h10⟩ := hu
      simp only [parsedSettings, List.mem_cons, List.mem_singleton, List.not_mem_nil,
        or_false] at hkey
      rcases hkey with rfl | rfl | rfl | rfl | rfl | rfl | rfl | rfl
      · rw [hget, stoi_nil] at h1; cases h1
      · rw [hget] at h3; exact hstod _ h3
      · rw [hget] at h5; exact hstod _ h5
      · rw [hget, stoi_nil] at h6; cases h6
      · rw [hget] at h7; exact hstod _ h7
      · rw [hget, at0_nil] at h8; cases h8
      · rw [hget, at0_nil] at h9; cases h9
      · rw [hget, stoi_nil] at h10; cases h10
    obtain ⟨e, he⟩ := parse_error_of_not_ok stod file hno
    exact ⟨e, he, fun W TP c w passes => main_error_of_parse_error stod c file w passes e he⟩
  · intro u hu
    unfold parseUserSettings at hu
    rw [fillUserInput_ok_iff] at hu
    obtain ⟨_, h2, _, h4, _⟩ := hu
    constructor
    · intro hmiss
      rw [h2]; exact get_eq_nil_of_not_hasSetting _ _ hmiss
    · intro hmiss
      rw [h4]; exact get_eq_nil_of_not_hasSetting _ _ hmiss

theorem decimalStod_nil : ∀ x, decimalStod [] ≠ Except.ok x := by
  intro x h
  simp [decimalStod, takeSign] at h

set_option maxRecDepth 100000 in
/-- C3, a concrete run: the file without a `pathLen` line does not load. -/
theorem missing_parsed_setting_is_fatal_witness :
    hasSetting (readLines fileNoPathLen) kPathLen = false ∧
    ∃ e, parseUserSettings decimalStod fileNoPathLen = Except.error e ∧
      ∀ (W TP : Type) (c : Collab W TP) (w : W) (passes : Nat),
        main decimalStod c fileNoPathLen w passes = Except.error e :=
  ⟨by decide,
   (missing_parsed_setting_is_fatal decimalStod decimalStod_nil fileNoPathLen).1 kPathLen
     (by decide) (by decide)⟩

set_option maxRecDepth 100000 in
/-- C3 fails as stated: a file without `startCoin` and `exchangeRemove` lines loads,
both read as the empty string, and `main` enters `mainArbOnly`. -/
theorem missing_startCoin_still_loads :
    hasSetting (readLines fileNoStartCoin) kStartCoin = false ∧
    hasSetting (readLines fileNoStartCoin) kExchangeRemove = false ∧
    loadsWith (parseUserSettings decimalStod fileNoStartCoin)
      (fun u => decide (u.startCoin = [] ∧ u.exchangeRemove = [])) = true ∧
    (main decimalStod demoCollab fileNoStartCoin 0 2).toOption.map (fun r => r.1)
      = some Loop.mainArbOnly := by
  refine ⟨by decide, by decide, by decide, by decide⟩

theorem stoi_error_of_not_startsWith (s : Str) (h : startsWithInteger s = false) (v : Int) :
    stoi s ≠ Except.ok v := by
  intro hv
  have := strtol_some_startsWith s v (stoi_ok s v hv).1
  rw [h] at this
  cases this

/-- C4, as amended. When the value of an integer setting (pathLen, coinReq or
orderBookDepth) does not begin, after optional white space and an optional sign, with a
decimal digit, `parseUserSettings` raises. Such a value is in particular not a
well-formed integer in its entirety; the converse fails, since text after the leading
integer is ignored by `stoi`. -/
theorem integer_setting_without_leading_integer_is_fatal (stod : Str → Except StdError ℚ)
    (file : Str) (key : Str) (hkey : key ∈ integerSettings)
    (hbad : startsWithInteger ((buildValues (readLines file)).get key) = false) :
    (∃ e, parseUserSettings stod file = Except.error e) ∧
    wellFormedInteger ((buildValues (readLines file)).get key) = false := by
  constructor
  · apply parse_error_of_not_ok
    intro u hu
    unfold parseUserSettings at hu
    rw [fillUserInput_ok_iff] at hu
    obtain ⟨h1, _, _, _, _, h6, _, _, _, h10⟩ := hu
    simp only [integerSettings, List.mem_cons, List.mem_singleton, List.not_mem_nil,
      or_false] at hkey
    rcases hkey with rfl | rfl | rfl
    · exact stoi_error_of_not_startsWith _ hbad _ h1
    · exact stoi_error_of_not_startsWith _ hbad _ h6
    · exact stoi_error_of_not_startsWith _ hbad _ h10
  · by_contra hw
    have := wellFormed_startsWith _ (by simpa using hw)
    rw [hbad] at this
    cases this

set_option maxRecDepth 100000 in
/-- C4, a concrete run: `pathLen=three` does not load. -/
theorem integer_setting_without_leading_integer_is_fatal_witness :
    startsWithInteger ((buildValues (readLines fileNoNumber)).get kPathLen) = false ∧
    (∃ e, parseUserSettings decimalStod fileNoNumber = Except.error e) ∧
    wellFormedInteger ((buildValues (readLines fileNoNumber)).get kPathLen) = false :=
  ⟨by decide,
   integer_setting_without_leading_integer_is_fatal decimalStod fileNoNumber kPathLen
     (by decide) (by decide)⟩

set_option maxRecDepth 100000 in
/-- C4 fails as stated: `pathLen=3abc` is not an integer in its entirety, yet the file
loads with `pathLen = 3`. -/
theorem trailing_text_after_integer_still_loads :
    (buildValues (readLines fileTrailingText)).get kPathLen = "3abc".toList ∧
    wellFormedInteger ((buildValues (readLines fileTrailingText)).get kPathLen) = false ∧
    loadsWith (parseUserSettings decimalStod fileTrailingText)
      (fun u => decide (u.pathLen = 3)) = true := by
  refine ⟨by decide, by decide, by decide⟩

/-- C5, as amended. In every configuration that `parseUserSettings` loads, `pathLen` and
`orderBookDepth` are the integers `strtol` reads at the start of their settings, and they
fit a 32-bit `int`. No other range is enforced. -/
theorem loaded_integers_are_what_stoi_reads (stod : Str → Except StdError ℚ) (file : Str)
    (u : UserInput) (h : parseUserSettings stod file = Except.ok u) :
    strtol ((buildValues (readLines file)).get kPathLen) = some u.pathLen ∧
    INT_MIN ≤ u.pathLen ∧ u.pathLen ≤ INT_MAX ∧
    strtol ((buildValues (readLines file)).get kOrderBookDepth) = some u.orderBookDepth ∧
    INT_MIN ≤ u.orderBookDepth ∧ u.orderBookDepth ≤ INT_MAX := by
  unfold parseUserSettings at h
  rw [fillUserInput_ok_iff] at h
  obtain ⟨h1, _, _, _, _, _, _, _, _, h10⟩ := h
  obtain ⟨a1, a2, a3⟩ := stoi_ok _ _ h1
  obtain ⟨b1, b2, b3⟩ := stoi_ok _ _ h10
  exact ⟨a1, a2, a3, b1, b2, b3⟩

/-- C5, a concrete run: the complete file loads. -/
theorem loaded_integers_are_what_stoi_reads_witness :
    parseUserSettings decimalStod fileComplete = Except.ok loadedComplete ∧
    strtol ((buildValues (readLines fileComplete)).get kPathLen) = some loadedComplete.pathLen ∧
    INT_MIN ≤ loadedComplete.pathLen ∧ loadedComplete.pathLen ≤ INT_MAX ∧
    strtol ((buildValues (readLines fileComplete)).get kOrderBookDepth)
      = some loadedComplete.orderBookDepth ∧
    INT_MIN ≤ loadedComplete.orderBookDepth ∧ loadedComplete.orderBookDepth ≤ INT_MAX :=
  ⟨by decide!,
   loaded_integers_are_what_stoi_reads decimalStod fileComplete loadedComplete (by decide!)⟩

set_option maxRecDepth 100000 in
/-- C5 fails as stated: a file with `pathLen=1` and `orderBookDepth=0` loads, below the
documented ranges, and `main` enters `mainArbOnly` with it. -/
theorem small_integers_still_load :
    loadsWith (parseUserSettings decimalStod fileSmallInts)
      (fun u => decide (u.pathLen = 1 ∧ u.orderBookDepth = 0 ∧
        ¬ (2 ≤ u.pathLen ∧ 1 ≤ u.orderBookDepth))) = true ∧
    (main decimalStod demoCollab fileSmallInts 0 2).toOption.map (fun r => r.1)
      = some Loop.mainArbOnly := by
  refine ⟨by decide, by decide⟩

theorem readLinesFuel_no_newline (fuel : Nat) (file : Str) :
    ∀ line ∈ readLinesFuel fuel file, '\n' ∉ line := by
  induction fuel generalizing file with
  | zero => intro line h; simp [readLinesFuel] at h
  | succ n ih =>
    intro line h
    unfold readLinesFuel at h
    split at h
    · simp at h
    · rcases List.mem_cons.mp h with h | h
      · subst h
        intro hm
        have := List.mem_takeWhile_imp hm
        simp at this
      · exact ih _ line h

theorem parseLine_key_value (key value : Str) (hk : '=' ∉ key) (hv : '\n' ∉ value) :
    parseLine (key ++ '=' :: value) = (key, value) := by
  have hpos : ∀ a ∈ key, (fun c => !decide (c = '=')) a = true := by
    intro a ha
    have : a ≠ '=' := fun h => hk (h ▸ ha)
    simp [this]
  have hval : List.takeWhile (fun c => !decide (c = '\n')) value = value := by
    rw [List.takeWhile_eq_self_iff]
    intro a ha
    have : a ≠ '\n' := fun h => hv (h ▸ ha)
    simp [this]
  simp only [parseLine, getline]
  rw [List.takeWhile_append_of_pos hpos, List.dropWhile_append_of_pos hpos]
  simp [hval]

theorem parseLine_no_eq (line : Str) (hk : '=' ∉ line) : parseLine line = (line, []) := by
  have hpos : ∀ a ∈ line, (fun c => !decide (c = '=')) a = true := by
    intro a ha
    have : a ≠ '=' := fun h => hk (h ▸ ha)
    simp [this]
  have h1 : List.takeWhile (fun c => !decide (c = '=')) line = line :=
    List.takeWhile_eq_self_iff.mpr hpos
  have h2 : List.dropWhile (fun c => !decide (c = '=')) line = [] :=
    List.dropWhile_eq_nil_iff.mpr hpos
  simp only [parseLine, getline, h1, h2]
  rfl

/-- C10. The line parsing of the loader. A line `key=value` (no `=` in the key) gives
that key and the whole rest of the line as value, later `=` signs included; a line
without `=` gives the line as key and the empty value; the value stored for a key is the
one of the last line with that key; a key on no line reads as the empty string. Lines
read from a file never contain a line feed, and the text settings of a loaded
configuration are these stored values. -/
theorem settings_lines_parse_as_key_value :
    (∀ key value : Str, '=' ∉ key → '\n' ∉ value →
      parseLine (key ++ '=' :: value) = (key, value)) ∧
    (∀ line : Str, '=' ∉ line → parseLine line = (line, [])) ∧
    (∀ (before after : List Str) (line : Str),
      (∀ l ∈ after, (parseLine l).1 ≠ (parseLine line).1) →
      (buildValues (before ++ line :: after)).get (parseLine line).1 = (parseLine line).2) ∧
    (∀ (lines : List Str) (key : Str), (∀ l ∈ lines, (parseLine l).1 ≠ key) →
      (buildValues lines).get key = []) ∧
    (∀ file : Str, ∀ line ∈ readLines file, '\n' ∉ line) ∧
    (∀ (stod : Str → Except StdError ℚ) (file : Str) (u : UserInput),
      parseUserSettings stod file = Except.ok u →
      u.startCoin = (buildValues (readLines file)).get kStartCoin ∧
      u.exchangeRemove = (buildValues (readLines file)).get kExchangeRemove ∧
      stoi ((buildValues (readLines file)).get kPathLen) = Except.ok u.pathLen) := by
  refine ⟨parseLine_key_value, parseLine_no_eq, ?_, ?_, ?_, ?_⟩
  · intro before after line hafter
    unfold buildValues
    rw [List.foldl_append, List.foldl_cons]
    apply foldl_get_of_forall after _ _ (fun v => v = (parseLine line).2)
    · rw [Values.get_set]; simp
    · intro l hl hk
      exact absurd hk (hafter l hl)
  · intro lines key h
    unfold buildValues
    apply foldl_get_of_forall lines [] key (fun v => v = [])
    · rfl
    · intro l hl hk
      exact absurd hk (h l hl)
  · intro file
    exact readLinesFuel_no_newline _ _
  · intro stod file u hu
    unfold parseUserSettings at hu
    rw [fillUserInput_ok_iff] at hu
    exact ⟨hu.2.1, hu.2.2.2.1, hu.1⟩

set_option maxRecDepth 100000 in
/-- C10 at concrete lines. -/
theorem settings_lines_parse_as_key_value_witness :
    parseLine "lowerBound=a=b".toList = ("lowerBound".toList, "a=b".toList) ∧
    parseLine "lowerBound".toList = ("lowerBound".toList, []) ∧
    (buildValues ["k=1".toList, "k=2".toList, "j=3".toList]).get (parseLine "k=2".toList).1
      = (parseLine "k=2".toList).2 ∧
    (buildValues ["k=1".toList]).get "j".toList = [] :=
  ⟨settings_lines_parse_as_key_value.1 "lowerBound".toList "a=b".toList (by decide) (by decide),
   settings_lines_parse_as_key_value.2.1 "lowerBound".toList (by decide),
   settings_lines_parse_as_key_value.2.2.1 ["k=1".toList] ["j=3".toList] "k=2".toList
     (by decide),
   settings_lines_parse_as_key_value.2.2.2.1 ["k=1".toList] "j".toList (by decide)⟩

/-- Insert the fields one after the other. -/
theorem mem_foldl_insert (l : List Str) (acc : USet) (x : Str) :
    x ∈ l.foldl USet.insert acc ↔ x ∈ acc ∨ x ∈ l := by
  induction l generalizing acc with
  | nil => simp
  | cons y ys ih =>
    rw [List.foldl_cons, ih]
    unfold USet.insert
    by_cases hy : y ∈ acc
    · rw [if_pos hy]
      simp only [List.mem_cons]
      constructor
      · rintro (h | h)
        · exact Or.inl h
        · exact Or.inr (Or.inr h)
      · rintro (h | h | h)
        · exact Or.inl h
        · exact Or.inl (h ▸ hy)
        · exact Or.inr h
    · rw [if_neg hy]
      simp only [List.mem_cons]
      constructor
      · rintro ((h | h) | h)
        · exact Or.inr (Or.inl h)
        · exact Or.inl h
        · exact Or.inr (Or.inr h)
      · rintro (h | h | h)
        · exact Or.inl (Or.inr h)
        · exact Or.inl (Or.inl h)
        · exact Or.inr h

theorem nodup_foldl_insert (l : List Str) (acc : USet) (h : acc.Nodup) :
    (l.foldl USet.insert acc).Nodup := by
  induction l generalizing acc with
  | nil => simpa using h
  | cons y ys ih =>
    rw [List.foldl_cons]
    apply ih
    unfold USet.insert
    by_cases hy : y ∈ acc
    · rw [if_pos hy]; exact h
    · rw [if_neg hy]; exact List.nodup_cons.mpr ⟨hy, h⟩

theorem findFrom_none (c : Char) (l : Str) (i : Nat) (h : findFrom c l i = none) : c ∉ l := by
  induction l generalizing i with
  | nil => simp
  | cons x xs ih =>
    unfold findFrom at h
    split at h
    · cases h
    · rename_i hx
      intro hm
      rcases List.mem_cons.mp hm with hm | hm
      · exact hx hm.symm
      · exact ih _ h hm

theorem findFrom_some (c : Char) (l : Str) (i d : Nat) (h : findFrom c l i = some d) :
    ∃ a b, l = a ++ c :: b ∧ c ∉ a ∧ d = i + a.length := by
  induction l generalizing i with
  | nil => simp [findFrom] at h
  | cons x xs ih =>
    unfold findFrom at h
    split at h
    · rename_i hx
      injection h with h
      exact ⟨[], xs, by simp [hx], by simp, by simp [h]⟩
    · rename_i hx
      obtain ⟨a, b, h1, h2, h3⟩ := ih _ h
      refine ⟨x :: a, b, by simp [h1], ?_, by simp [h3]; omega⟩
      intro hm
      rcases List.mem_cons.mp hm with hm | hm
      · exact hx hm.symm
      · exact h2 hm

theorem splitOn_no_sep (l : Str) (h : '/' ∉ l) : l.splitOn '/' = [l] := by
  unfold List.splitOn
  apply List.splitOnP_eq_single
  intro x hx hp
  have : x = '/' := by simpa using hp
  exact h (this ▸ hx)

theorem splitOn_first (a b : Str) (h : '/' ∉ a) :
    (a ++ '/' :: b).splitOn '/' = a :: b.splitOn '/' := by
  unfold List.splitOn
  apply List.splitOnP_first
  · intro x hx hp
    have : x = '/' := by simpa using hp
    exact h (this ▸ hx)
  · simp

/-- The loop of `removeExchanges` from any position reached. -/
theorem removeExchangesLoop_eq (s : Str) (fuel : Nat) :
    ∀ (p : Nat) (acc : USet), p ≤ s.length → s.length - p ≤ fuel →
      removeExchangesLoop s fuel p (find s '/' p) acc
        = some (((s.drop p).splitOn '/').foldl USet.insert acc) := by
  induction fuel with
  | zero =>
    intro p acc hp hf
    have hpe : p = s.length := by omega
    have hd : s.drop p = [] := by rw [hpe]; exact List.drop_length s
    have hfind : find s '/' p = none := by simp [find, hd, findFrom]
    rw [hfind]
    have hsub : substr s p none = some (s.drop p) := by
      simp [substr, Nat.not_lt.mpr hp]
    simp only [removeExchangesLoop, hsub, Option.map_some']
    rw [splitOn_no_sep _ (by rw [hd]; simp)]
    rfl
  | succ n ih =>
    intro p acc hp hf
    cases hfind : find s '/' p with
    | none =>
      have hno : '/' ∉ s.drop p := findFrom_none _ _ _ hfind
      have hsub : substr s p none = some (s.drop p) := by
        simp [substr, Nat.not_lt.mpr hp]
      simp only [removeExchangesLoop, hsub, Option.map_some']
      rw [splitOn_no_sep _ hno]
      rfl
    | some d =>
      obtain ⟨a, b, h1, h2, h3⟩ := findFrom_some _ _ _ _ hfind
      have hlen : (s.drop p).length = a.length + 1 + b.length := by
        rw [h1]; simp; omega
      rw [List.length_drop] at hlen
      have hsub : substr s p (some (d - p)) = some a := by
        have : d - p = a.length := by omega
        simp only [substr, Nat.not_lt.mpr hp, if_false, this, h1]
        rw [List.take_left]
      have hdrop : s.drop (d + 1) = b := by
        have : d + 1 = p + (a.length + 1) := by omega
        rw [this, ← List.drop_drop, h1]
        have e : a ++ '/' :: b = (a ++ ['/']) ++ b := by simp
        rw [e]
        exact List.drop_left' (by simp)
      simp only [removeExchangesLoop, hsub]
      rw [ih (d + 1) _ (by omega) (by omega), h1, splitOn_first a b h2, hdrop]
      rfl

theorem splitOn_fields_no_sep (n : Nat) : ∀ l : Str, l.length ≤ n →
    ∀ x ∈ l.splitOn '/', '/' ∉ x := by
  induction n with
  | zero =>
    intro l hl x hx
    have : l = [] := List.length_eq_zero.mp (by omega)
    subst this
    rw [splitOn_no_sep [] (by simp)] at hx
    simp at hx
    subst hx
    simp
  | succ n ih =>
    intro l hl x hx
    cases hf : findFrom '/' l 0 with
    | none =>
      have hno := findFrom_none _ _ _ hf
      rw [splitOn_no_sep l hno] at hx
      simp at hx
      subst hx
      exact hno
    | some d =>
      obtain ⟨a, b, h1, h2, _⟩ := findFrom_some _ _ _ _ hf
      subst h1
      rw [splitOn_first a b h2] at hx
      rcases List.mem_cons.mp hx with hx | hx
      · subst hx; exact h2
      · apply ih b _ x hx
        simp at hl
        omega

/-- The function `removeExchanges` returns, and what it returns: the fields of the text
inserted one after the other. -/
theorem removeExchanges_eq (s : Str) :
    removeExchanges s = some ((s.splitOn '/').foldl USet.insert []) := by
  unfold removeExchanges
  rw [removeExchangesLoop_eq s s.length 0 [] (by omega) (by omega)]
  rfl

/-- C6. For every text `s`, `removeExchanges s` returns (the rounds given to its loop
are enough and `substr` never raises), and the set returned has exactly the fields of
`s` split at every `/` as members, empty fields included; no member contains `/` and no
member is repeated. For a non-empty list of names without `/`, the names joined by `/`
give back exactly the set of those names. -/
theorem removeExchanges_is_the_set_of_fields :
    (∀ s : Str, ∃ set : USet, removeExchanges s = some set ∧
      (∀ x, x ∈ set ↔ x ∈ s.splitOn '/') ∧ (∀ x ∈ set, '/' ∉ x) ∧ set.Nodup) ∧
    (∀ names : List Str, names ≠ [] → (∀ n ∈ names, '/' ∉ n) →
      ∃ set : USet, removeExchanges (['/'].intercalate names) = some set ∧
        ∀ x, x ∈ set ↔ x ∈ names) := by
  have main := removeExchanges_eq
  constructor
  · intro s
    refine ⟨_, main s, ?_, ?_, ?_⟩
    · intro x
      rw [mem_foldl_insert]
      simp
    · intro x hx
      rw [mem_foldl_insert] at hx
      rcases hx with hx | hx
      · simp at hx
      · exact splitOn_fields_no_sep _ s (le_refl _) x hx
    · exact nodup_foldl_insert _ _ List.nodup_nil
  · intro names hne hnames
    refine ⟨_, main _, ?_⟩
    intro x
    rw [mem_foldl_insert, List.splitOn_intercalate names '/' hnames hne]
    simp

/-- C6 at concrete texts. -/
theorem removeExchanges_is_the_set_of_fields_witness :
    removeExchanges "kucoin//gemini/".toList
      = some ["gemini".toList, [], "kucoin".toList] ∧
    ∃ set : USet, removeExchanges (['/'].intercalate ["kucoin".toList, "gemini".toList])
      = some set ∧ ∀ x, x ∈ set ↔ x ∈ ["kucoin".toList, "gemini".toList] :=
  ⟨by decide,
   removeExchanges_is_the_set_of_fields.2 ["kucoin".toList, "gemini".toList] (by decide)
     (by decide)⟩

/-- The calls of one round of `mainArbOnly`. -/
theorem arbOnlyPass_trace {W TP : Type} (c : Collab W TP) (u : UserInput) (ex : USet)
    (s : ArbOnlyState W TP) :
    ∃ (q : ℚ) (n1 n2 n3 n4 : Int),
      (arbOnlyPass c u ex s).run.trace = s.run.trace ++
        [Call.pullAllTicker false,
         Call.ArbDetect u.startCoin (1 + u.lowerBound) (11 / 10) u.pathLen
           (arbOnlyPass c u ex s).arbPath,
         Call.cout [OutItem.str "Iteration ", OutItem.int n1, OutItem.str ": "]] ++
        (if (arbOnlyPass c u ex s).arbPath.length > 0 then
          [Call.amountOptControlMain (arbOnlyPass c u ex s).arbPath u.orderBookDepth
            u.tradeAmt q]
         else []) ++
        [Call.LogArbInfo (arbOnlyPass c u ex s).arbPath u.startCoin
           (arbOnlyPass c u ex s).profitability,
         Call.CheckPointInfo n1 n2 n3 n4, Call.sleep 1] ∧
      ((arbOnlyPass c u ex s).arbPath.length > 0 →
        (arbOnlyPass c u ex s).profitability = some q) ∧
      (¬ (arbOnlyPass c u ex s).arbPath.length > 0 →
        (arbOnlyPass c u ex s).profitability = s.profitability) := by
  by_cases h : (c.ArbDetect u.startCoin (1 + u.lowerBound) (11 / 10) u.pathLen
      (c.pullAllTicker false ex s.run.world)).1.length > 0
  · refine ⟨(c.amountOptControlMain (c.ArbDetect u.startCoin (1 + u.lowerBound) (11 / 10)
        u.pathLen (c.pullAllTicker false ex s.run.world)).1 u.orderBookDepth u.tradeAmt
        (c.ArbDetect u.startCoin (1 + u.lowerBound) (11 / 10) u.pathLen
          (c.pullAllTicker false ex s.run.world)).2).1,
      s.frameworkIterations + 1, s.positiveArbs + 1, s.currIterations + 1,
      s.currArbsFound + 1, ?_, ?_, ?_⟩
    · simp [arbOnlyPass, h]
    · intro _; simp [arbOnlyPass, h]
    · intro h2; exact absurd (by simpa [arbOnlyPass] using h) h2
  · refine ⟨0, s.frameworkIterations + 1, s.positiveArbs, s.currIterations + 1,
      s.currArbsFound, ?_, ?_, ?_⟩
    · simp [arbOnlyPass, h]
    · intro h2; exact absurd (by simpa [arbOnlyPass] using h2) h
    · intro _; simp [arbOnlyPass, h]

theorem coreCalls_append {TP : Type} (a b : List (Call TP)) :
    coreCalls (a ++ b) = coreCalls a ++ coreCalls b := by
  simp [coreCalls]

theorem Replays_append {W TP : Type} (c : Collab W TP) (ex : USet) (a b : List (Call TP))
    (w w1 w2 : W) (ha : Replays c ex a w w1) (hb : Replays c ex b w1 w2) :
    Replays c ex (a ++ b) w w2 := by
  induction a generalizing w with
  | nil =>
    simp only [Replays] at ha
    subst ha
    simpa using hb
  | cons e es ih =>
    obtain ⟨w', h1, h2⟩ := ha
    exact ⟨w', h1, ih w' h2⟩

theorem Replays_of_output {W TP : Type} (c : Collab W TP) (ex : USet) (a : List (Call TP))
    (w : W) (h : ∀ e ∈ a, Call.isOutput e = true) : Replays c ex a w w := by
  induction a with
  | nil => rfl
  | cons e es ih =>
    refine ⟨w, ?_, ih (fun x hx => h x (List.mem_cons_of_mem _ hx))⟩
    have he := h e (List.mem_cons_self _ _)
    cases e <;> first | rfl | cases he

/-- One round of `mainArbOnly`: the calls it adds, made on the world of the round. -/
theorem arbOnlyPass_new {W TP : Type} (c : Collab W TP) (u : UserInput) (ex : USet)
    (s : ArbOnlyState W TP) :
    ∃ (new : List (Call TP)) (q : ℚ),
      (arbOnlyPass c u ex s).run.trace = s.run.trace ++ new ∧
      Replays c ex new s.run.world (arbOnlyPass c u ex s).run.world ∧
      coreCalls new = passCalls u (arbOnlyPass c u ex s).arbPath
        (Call.amountOptControlMain (arbOnlyPass c u ex s).arbPath u.orderBookDepth
          u.tradeAmt q) ∧
      (∀ e ∈ new, Call.isSetup e = false) := by
  by_cases h : (c.ArbDetect u.startCoin (1 + u.lowerBound) (11 / 10) u.pathLen
      (c.pullAllTicker false ex s.run.world)).1.length > 0
  · refine ⟨_, (arbOnlyPass c u ex s).profitability.getD 0,
      by simp only [arbOnlyPass, h, if_true, List.append_assoc]; rfl, ?_, ?_, ?_⟩
    · simp [Replays, Call.Performs, arbOnlyPass, h]
    · simp [coreCalls, Call.isCore, passCalls, arbOnlyPass, h]
    · simp [Call.isSetup]
  · refine ⟨_, 0, by simp only [arbOnlyPass, h, if_false, List.append_assoc]; rfl, ?_, ?_, ?_⟩
    · simp [Replays, Call.Performs, arbOnlyPass, h]
    · simp [coreCalls, Call.isCore, passCalls, arbOnlyPass, h]
    · simp [Call.isSetup]

theorem debugPass_arbPath {W TP : Type} (c : Collab W TP) (u : UserInput) (ex : USet)
    (s : DebugState W TP) :
    (debugPass c u ex s).arbPath = (c.ArbDetect u.startCoin (1 + u.lowerBound) (11 / 10)
      u.pathLen (c.pullAllTicker false ex s.run.world)).1 := by
  unfold debugPass
  simp only
  split <;> rfl

/-- One round of `mainDebugMode`: the calls it adds, made on the world of the round, and
what becomes of `found`. -/
theorem debugPass_new {W TP : Type} (c : Collab W TP) (u : UserInput) (ex : USet)
    (s : DebugState W TP) :
    ∃ (new : List (Call TP)),
      (debugPass c u ex s).run.trace = s.run.trace ++ new ∧
      Replays c ex new s.run.world (debugPass c u ex s).run.world ∧
      coreCalls new = passCalls u (debugPass c u ex s).arbPath
        (Call.amountOptControlDebug (debugPass c u ex s).arbPath u.orderBookDepth
          u.tradeAmt) ∧
      (∀ e ∈ new, Call.isSetup e = false) ∧
      ((debugPass c u ex s).arbPath = [] → (debugPass c u ex s).found = s.found) ∧
      ((debugPass c u ex s).arbPath ≠ [] → (debugPass c u ex s).found = s.found + 1) := by
  by_cases h : (c.ArbDetect u.startCoin (1 + u.lowerBound) (11 / 10) u.pathLen
      (c.pullAllTicker false ex s.run.world)).1.length > 0
  · refine ⟨_, by simp only [debugPass, h, if_true, List.append_assoc]; rfl, ?_, ?_, ?_, ?_, ?_⟩
    · simp [Replays, Call.Performs, debugPass, h]
    · simp [coreCalls, Call.isCore, passCalls, debugPass, h]
    · simp [Call.isSetup]
    · intro hp
      rw [debugPass_arbPath] at hp
      rw [hp] at h
      cases h
    · intro _; simp [debugPass, h]
  · refine ⟨_, by simp only [debugPass, h, if_false, List.append_assoc]; rfl, ?_, ?_, ?_, ?_, ?_⟩
    · simp [Replays, Call.Performs, debugPass, h]
    · simp [coreCalls, Call.isCore, passCalls, debugPass, h]
    · simp [Call.isSetup]
    · intro _; simp [debugPass, h]
    · intro hp
      rw [debugPass_arbPath] at hp
      exact absurd (List.length_pos.mpr hp) h

/-- One round of `mainTimeMode`: the calls it adds, made on the world of the round. -/
theorem timePass_new {W TP : Type} (c : Collab W TP) (u : UserInput) (ex : USet)
    (s : TimeState W TP) :
    ∃ (new : List (Call TP)) (times : List ℚ) (q : ℚ),
      (timePass c u ex s).run.trace = s.run.trace ++ new ∧
      Replays c ex new s.run.world (timePass c u ex s).run.world ∧
      coreCalls new = passCalls u (timePass c u ex s).arbPath
        (Call.amountOptControlTime (timePass c u ex s).arbPath u.orderBookDepth
          u.tradeAmt times q) ∧
      (∀ e ∈ new, Call.isSetup e = false) := by
  by_cases h : (c.ArbDetect u.startCoin (1 + u.lowerBound) (11 / 10) u.pathLen
      (c.now (c.now (c.pullAllTicker false ex (c.now s.run.world).2)).2).2).1.length > 0
  · by_cases h100 : s.iterations % 100 = 0
    · refine ⟨_, roundTimes c u ex s.run.world, (timePass c u ex s).profitability.getD 0,
        by simp only [timePass, h, h100, if_true, List.append_assoc]; rfl, ?_, ?_, ?_⟩
      · simp [Replays, Call.Performs, timePass, h]
      · simp [coreCalls, Call.isCore, passCalls, timePass, roundTimes, h]
      · simp [Call.isSetup]
    · refine ⟨_, roundTimes c u ex s.run.world, (timePass c u ex s).profitability.getD 0,
        by simp only [timePass, h, h100, if_true, if_false, List.append_assoc]; rfl, ?_, ?_, ?_⟩
      · simp [Replays, Call.Performs, timePass, h]
      · simp [coreCalls, Call.isCore, passCalls, timePass, roundTimes, h]
      · simp [Call.isSetup]
  · by_cases h100 : s.iterations % 100 = 0
    · refine ⟨_, [], 0, by simp only [timePass, h, h100, if_true, if_false, List.append_assoc]; rfl,
        ?_, ?_, ?_⟩
      · simp [Replays, Call.Performs, timePass, h]
      · simp [coreCalls, Call.isCore, passCalls, timePass, h]
      · simp [Call.isSetup]
    · refine ⟨_, [], 0, by simp only [timePass, h, h100, if_false, List.append_assoc]; rfl,
        ?_, ?_, ?_⟩
      · simp [Replays, Call.Performs, timePass, h]
      · simp [coreCalls, Call.isCore, passCalls, timePass, h]
      · simp [Call.isSetup]

theorem setGraph_replays {W TP : Type} (c : Collab W TP) (ex : USet) (r : Run W TP) :
    Replays c ex setupCalls r.world (setGraph c ex r).world := by
  simp [Replays, Call.Performs, setupCalls, setGraph]

/-- The calls of `mainArbOnly` after its first `n` rounds. -/
theorem mainArbOnly_run {W TP : Type} (c : Collab W TP) (u : UserInput) (ex : USet)
    (r : Run W TP) (n : Nat) :
    ∃ (rest : List (Call TP)) (ps : List (List TP × ℚ)), ps.length = n ∧
      (mainArbOnly c u ex r n).run.trace = r.trace ++ setupCalls ++ rest ∧
      Replays c ex (setupCalls ++ rest) r.world (mainArbOnly c u ex r n).run.world ∧
      coreCalls rest = ps.flatMap (fun p =>
        passCalls u p.1 (Call.amountOptControlMain p.1 u.orderBookDepth u.tradeAmt p.2)) ∧
      (∀ e ∈ rest, Call.isSetup e = false) := by
  induction n with
  | zero =>
    refine ⟨[], [], rfl, by simp [mainArbOnly, arbOnlyInit, setGraph, setupCalls], ?_, rfl,
      by simp⟩
    rw [List.append_nil]
    exact setGraph_replays c ex r
  | succ n ih =>
    obtain ⟨rest, ps, hlen, htr, hrep, hcore, hset⟩ := ih
    obtain ⟨new, q, hnew, hnr, hnc, hns⟩ := arbOnlyPass_new c u ex (mainArbOnly c u ex r n)
    have hstep : mainArbOnly c u ex r (n + 1)
        = arbOnlyPass c u ex (mainArbOnly c u ex r n) := rfl
    refine ⟨rest ++ new, ps ++ [((mainArbOnly c u ex r (n + 1)).arbPath, q)],
      by simp [hlen], ?_, ?_, ?_, ?_⟩
    · rw [hstep, hnew, htr]; simp
    · rw [hstep, ← List.append_assoc]
      exact Replays_append c ex _ _ _ _ _ hrep hnr
    · rw [coreCalls_append, hcore, hstep, hnc]; simp
    · intro e he
      rcases List.mem_append.mp he with he | he
      · exact hset e he
      · exact hns e he

/-- The calls of `mainTimeMode` after its first `n` rounds. -/
theorem mainTimeMode_run {W TP : Type} (c : Collab W TP) (u : UserInput) (ex : USet)
    (r : Run W TP) (n : Nat) :
    ∃ (rest : List (Call TP)) (ps : List (List TP × List ℚ × ℚ)), ps.length = n ∧
      (mainTimeMode c u ex r n).run.trace = r.trace ++ setupCalls ++ rest ∧
      Replays c ex (setupCalls ++ rest) r.world (mainTimeMode c u ex r n).run.world ∧
      coreCalls rest = ps.flatMap (fun p =>
        passCalls u p.1
          (Call.amountOptControlTime p.1 u.orderBookDepth u.tradeAmt p.2.1 p.2.2)) ∧
      (∀ e ∈ rest, Call.isSetup e = false) := by
  induction n with
  | zero =>
    refine ⟨[], [], rfl, by simp [mainTimeMode, timeInit, setGraph, setupCalls], ?_, rfl,
      by simp⟩
    rw [List.append_nil]
    exact setGraph_replays c ex r
  | succ n ih =>
    obtain ⟨rest, ps, hlen, htr, hrep, hcore, hset⟩ := ih
    obtain ⟨new, times, q, hnew, hnr, hnc, hns⟩ :=
      timePass_new c u ex (mainTimeMode c u ex r n)
    have hstep : mainTimeMode c u ex r (n + 1)
        = timePass c u ex (mainTimeMode c u ex r n) := rfl
    refine ⟨rest ++ new, ps ++ [((mainTimeMode c u ex r (n + 1)).arbPath, times, q)],
      by simp [hlen], ?_, ?_, ?_, ?_⟩
    · rw [hstep, hnew, htr]; simp
    · rw [hstep, ← List.append_assoc]
      exact Replays_append c ex _ _ _ _ _ hrep hnr
    · rw [coreCalls_append, hcore, hstep, hnc]; simp
    · intro e he
      rcases List.mem_append.mp he with he | he
      · exact hset e he
      · exact hns e he

theorem debugLoop_of_found {W TP : Type} (c : Collab W TP) (u : UserInput) (ex : USet)
    (fuel : Nat) (s : DebugState W TP) (h : ¬ s.found < 1) :
    debugLoop c u ex fuel s = s := by
  cases fuel with
  | zero => rfl
  | succ n => simp [debugLoop, h]

/-- The calls of the loop of `mainDebugMode` in at most `fuel` rounds, entered with
`found = 0`. -/
theorem debugLoop_run {W TP : Type} (c : Collab W TP) (u : UserInput) (ex : USet)
    (fuel : Nat) : ∀ s : DebugState W TP, s.found = 0 →
    ∃ (rest : List (Call TP)) (k : Nat) (last : List (List TP)), debugPaths fuel k last ∧
      (debugLoop c u ex fuel s).run.trace = s.run.trace ++ rest ∧
      Replays c ex rest s.run.world (debugLoop c u ex fuel s).run.world ∧
      coreCalls rest = (List.replicate k [] ++ last).flatMap (fun p =>
        passCalls u p (Call.amountOptControlDebug p u.orderBookDepth u.tradeAmt)) ∧
      (∀ e ∈ rest, Call.isSetup e = false) := by
  induction fuel with
  | zero =>
    intro s _
    exact ⟨[], 0, [], Or.inl ⟨rfl, rfl⟩, by simp [debugLoop], rfl, rfl, by simp⟩
  | succ n ih =>
    intro s hs
    have hf : s.found < 1 := by omega
    obtain ⟨new, hnew, hnr, hnc, hns, hemp, hne⟩ := debugPass_new c u ex s
    have hloop : debugLoop c u ex (n + 1) s = debugLoop c u ex n (debugPass c u ex s) := by
      simp [debugLoop, hf]
    by_cases hp : (debugPass c u ex s).arbPath = []
    · obtain ⟨rest, k, last, hdp, htr, hrep, hcore, hset⟩ :=
        ih (debugPass c u ex s) (by rw [hemp hp, hs])
      refine ⟨new ++ rest, k + 1, last, ?_, ?_, ?_, ?_, ?_⟩
      · rcases hdp with ⟨h1, h2⟩ | ⟨p, h1, h2, h3⟩
        · exact Or.inl ⟨h1, by omega⟩
        · exact Or.inr ⟨p, h1, h2, by omega⟩
      · rw [hloop, htr, hnew]; simp
      · rw [hloop]
        exact Replays_append c ex _ _ _ _ _ hnr hrep
      · rw [coreCalls_append, hcore, hnc, hp, List.replicate_succ]
        simp
      · intro e he
        rcases List.mem_append.mp he with he | he
        · exact hns e he
        · exact hset e he
    · have hfound : ¬ (debugPass c u ex s).found < 1 := by rw [hne hp, hs]; omega
      have hstop := debugLoop_of_found c u ex n (debugPass c u ex s) hfound
      refine ⟨new, 0, [(debugPass c u ex s).arbPath],
        Or.inr ⟨_, hp, rfl, by omega⟩, ?_, ?_, ?_, hns⟩
      · rw [hloop, hstop, hnew]
      · rw [hloop, hstop]; exact hnr
      · rw [hnc]; simp

/-- The calls of `mainDebugMode` before its loop. -/
theorem debugInit_trace {W TP : Type} (c : Collab W TP) (u : UserInput) (ex : USet)
    (r : Run W TP) :
    ∃ (pre post : List (Call TP)),
      (debugInit c u ex r).run.trace = r.trace ++ pre ++ setupCalls ++ post ∧
      (∀ e ∈ pre, Call.isOutput e = true) ∧ (∀ e ∈ post, Call.isOutput e = true) ∧
      pre ≠ [] ∧
      Replays c ex (pre ++ setupCalls ++ post) r.world (debugInit c u ex r).run.world := by
  have hpre : ∀ e ∈ (debugBanner u : List (Call TP)), Call.isOutput e = true := by
    simp [debugBanner, printUserInput, Call.isOutput]
  have hpost : ∀ w : W, ∀ e ∈ (debugGraphStats c u w : List (Call TP)),
      Call.isOutput e = true := by
    intro w; simp [debugGraphStats, Call.isOutput]
  refine ⟨debugBanner u, debugGraphStats c u _, rfl, hpre, hpost _, by simp [debugBanner], ?_⟩
  refine Replays_append c ex _ _ _ _ _
    (Replays_append c ex _ _ _ _ _ (Replays_of_output c ex _ _ hpre) ?_)
    (Replays_of_output c ex _ _ (hpost _))
  exact setGraph_replays c ex ⟨r.world, r.trace ++ debugBanner u⟩

/-- The calls of `mainDebugMode` in at most `n` rounds. -/
theorem mainDebugMode_run {W TP : Type} (c : Collab W TP) (u : UserInput) (ex : USet)
    (r : Run W TP) (n : Nat) :
    ∃ (pre post rest : List (Call TP)) (k : Nat) (last : List (List TP)),
      debugPaths n k last ∧
      (∀ e ∈ pre, Call.isOutput e = true) ∧ (∀ e ∈ post, Call.isOutput e = true) ∧
      pre ≠ [] ∧
      (mainDebugMode c u ex r 0).run.trace = r.trace ++ pre ++ setupCalls ++ post ∧
      (mainDebugMode c u ex r n).run.trace = r.trace ++ pre ++ setupCalls ++ post ++ rest ∧
      Replays c ex (pre ++ setupCalls ++ post ++ rest) r.world
        (mainDebugMode c u ex r n).run.world ∧
      coreCalls rest = (List.replicate k [] ++ last).flatMap (fun p =>
        passCalls u p (Call.amountOptControlDebug p u.orderBookDepth u.tradeAmt)) ∧
      (∀ e ∈ rest, Call.isSetup e = false) := by
  obtain ⟨pre, post, hinit, hpre, hpost, hne, hirep⟩ := debugInit_trace c u ex r
  obtain ⟨rest, k, last, hdp, htr, hrep, hcore, hset⟩ :=
    debugLoop_run c u ex n (debugInit c u ex r) rfl
  refine ⟨pre, post, rest, k, last, hdp, hpre, hpost, hne, hinit, ?_, ?_, hcore, hset⟩
  · unfold mainDebugMode
    rw [htr, hinit]
  · unfold mainDebugMode
    exact Replays_append c ex _ _ _ _ _ hirep hrep

theorem mem_coreCalls {TP : Type} (t : List (Call TP)) (e : Call TP) :
    e ∈ coreCalls t ↔ e ∈ t ∧ Call.isCore e = true := by
  simp [coreCalls]

theorem coreCalls_of_output {TP : Type} (t : List (Call TP))
    (h : ∀ e ∈ t, Call.isOutput e = true) : coreCalls t = [] := by
  simp only [coreCalls, List.filter_eq_nil_iff]
  intro e he
  have := h e he
  cases e <;> simp_all [Call.isOutput, Call.isCore]

/-- What a call among the core calls of a run of passes can be. -/
theorem mem_passCalls_flatMap {TP α : Type} (u : UserInput) (ps : List α)
    (path : α → List TP) (sizing : α → Call TP) (e : Call TP)
    (h : e ∈ ps.flatMap (fun p => passCalls u (path p) (sizing p))) :
    e = Call.pullAllTicker false ∨
    (∃ p ∈ ps, e = Call.ArbDetect u.startCoin (1 + u.lowerBound) (11 / 10) u.pathLen (path p)) ∨
    (∃ p ∈ ps, e = sizing p) := by
  rw [List.mem_flatMap] at h
  obtain ⟨p, hp, he⟩ := h
  unfold passCalls at he
  rcases List.mem_append.mp he with he | he
  · simp only [List.mem_cons, List.mem_singleton, List.not_mem_nil, or_false] at he
    rcases he with he | he
    · exact Or.inl he
    · exact Or.inr (Or.inl ⟨p, hp, he⟩)
  · split at he
    · simp only [List.mem_singleton] at he
      exact Or.inr (Or.inr ⟨p, hp, he⟩)
    · cases he

theorem coreCalls_setup {TP : Type} :
    coreCalls (setupCalls : List (Call TP)) = [Call.pullAllTicker true] := rfl

theorem filter_coreCalls {TP : Type} (f : Call TP → Bool)
    (hf : ∀ e, f e = true → Call.isCore e = true) (t : List (Call TP)) :
    t.filter f = (coreCalls t).filter f := by
  simp only [coreCalls, List.filter_filter]
  congr 1
  funext e
  cases h : f e
  · simp
  · simp [hf e h]

theorem filter_arbDetect_passCalls {TP α : Type} (u : UserInput) (ps : List α)
    (path : α → List TP) (sizing : α → Call TP)
    (hs : ∀ p, Call.isArbDetect (sizing p) = false) :
    (ps.flatMap (fun p => passCalls u (path p) (sizing p))).filter Call.isArbDetect
      = ps.map (fun p => Call.ArbDetect u.startCoin (1 + u.lowerBound) (11 / 10)
          u.pathLen (path p)) := by
  induction ps with
  | nil => rfl
  | cons p ps ih =>
    rw [List.flatMap_cons, List.filter_append, ih, List.map_cons]
    have h1 : Call.isArbDetect (Call.pullAllTicker false : Call TP) = false := rfl
    have h2 : Call.isArbDetect (Call.ArbDetect u.startCoin (1 + u.lowerBound) (11 / 10)
        u.pathLen (path p)) = true := rfl
    simp only [passCalls]
    split <;> simp [List.filter_cons, h1, h2, hs p]

theorem count_refresh_passCalls {TP α : Type} (u : UserInput) (ps : List α)
    (path : α → List TP) (sizing : α → Call TP)
    (hs : ∀ p, Call.isRefresh (sizing p) = false) :
    ((ps.flatMap (fun p => passCalls u (path p) (sizing p))).filter Call.isRefresh).length
      = ps.length := by
  induction ps with
  | nil => rfl
  | cons p ps ih =>
    rw [List.flatMap_cons, List.filter_append, List.length_append, ih]
    have h1 : Call.isRefresh (Call.pullAllTicker false : Call TP) = true := rfl
    have h2 : Call.isRefresh (Call.ArbDetect u.startCoin (1 + u.lowerBound) (11 / 10)
        u.pathLen (path p)) = false := rfl
    simp only [passCalls]
    split <;> simp [List.filter_cons, h1, h2, hs p] <;> omega

theorem isCore_of_isArbDetect {TP : Type} (e : Call TP) (h : Call.isArbDetect e = true) :
    Call.isCore e = true := by
  cases e <;> first | rfl | cases h

theorem isCore_of_isRefresh {TP : Type} (e : Call TP) (h : Call.isRefresh e = true) :
    Call.isCore e = true := by
  cases e <;> first | rfl | cases h

theorem debugPaths_length {TP : Type} (n k : Nat) (last : List (List TP))
    (h : debugPaths n k last) : (List.replicate k ([] : List TP) ++ last).length ≤ n := by
  rcases h with ⟨h1, h2⟩ | ⟨p, _, h2, h3⟩
  · subst h1; simp [h2]
  · subst h2; simp; omega

/-- The refresh, search and sizing calls of the three loops. -/
theorem loops_core {W TP : Type} (c : Collab W TP)
    (u : UserInput) (ex : USet) (r : Run W TP) (n : Nat) :
    (∃ ps : List (List TP × ℚ), ps.length = n ∧
      coreCalls (mainArbOnly c u ex r n).run.trace = coreCalls r.trace ++
        Call.pullAllTicker true :: ps.flatMap (fun p =>
          passCalls u p.1 (Call.amountOptControlMain p.1 u.orderBookDepth u.tradeAmt p.2))) ∧
    (∃ ps : List (List TP), ps.length ≤ n ∧
      coreCalls (mainDebugMode c u ex r n).run.trace = coreCalls r.trace ++
        Call.pullAllTicker true :: ps.flatMap (fun p =>
          passCalls u p (Call.amountOptControlDebug p u.orderBookDepth u.tradeAmt))) ∧
    (∃ ps : List (List TP × List ℚ × ℚ), ps.length = n ∧
      coreCalls (mainTimeMode c u ex r n).run.trace = coreCalls r.trace ++
        Call.pullAllTicker true :: ps.flatMap (fun p =>
          passCalls u p.1
            (Call.amountOptControlTime p.1 u.orderBookDepth u.tradeAmt p.2.1 p.2.2))) := by
  refine ⟨?_, ?_, ?_⟩
  · obtain ⟨rest, ps, hlen, htr, -, hcore, -⟩ := mainArbOnly_run c u ex r n
    refine ⟨ps, hlen, ?_⟩
    rw [htr, coreCalls_append, coreCalls_append, hcore, coreCalls_setup]
    simp
  · obtain ⟨pre, post, rest, k, last, hdp, hpre, hpost, -, -, htr, -, hcore, -⟩ :=
      mainDebugMode_run c u ex r n
    refine ⟨_, debugPaths_length n k last hdp, ?_⟩
    rw [htr]
    simp only [coreCalls_append, hcore, coreCalls_setup, coreCalls_of_output pre hpre,
      coreCalls_of_output post hpost]
    simp
  · obtain ⟨rest, ps, hlen, htr, -, hcore, -⟩ := mainTimeMode_run c u ex r n
    refine ⟨ps, hlen, ?_⟩
    rw [htr, coreCalls_append, coreCalls_append, hcore, coreCalls_setup]
    simp

/-- C1. In each of the three loops the trace grows by calls that were really made, in
the order of the trace, on the world the loop was handed (`Replays`: every entry is the
collaborator it names applied to the arguments it shows, nothing is applied without an
entry). Among them the refresh, search and sizing calls (`coreCalls`) are: the one full
refresh of the set-up, then pass by pass (`passCalls`) a non-full `pullAllTicker`, then
`ArbDetect`, then the sizing call of the mode exactly when the path `ArbDetect` returned
in that pass is not empty, with that very path as argument. Hence no refresh is made
between the search and the sizing of a pass. After `n` rounds `mainArbOnly` and
`mainTimeMode` have made exactly `n` passes; `mainDebugMode` has made `k` passes that
found nothing and then, unless its `n` rounds are used up, one last pass that found a
path (`debugPaths`). -/
theorem each_pass_refreshes_then_searches_then_sizes {W TP : Type} (c : Collab W TP)
    (u : UserInput) (ex : USet) (r : Run W TP) (n : Nat) :
    (∃ (new : List (Call TP)) (ps : List (List TP × ℚ)), ps.length = n ∧
      (mainArbOnly c u ex r n).run.trace = r.trace ++ new ∧
      Replays c ex new r.world (mainArbOnly c u ex r n).run.world ∧
      coreCalls new = Call.pullAllTicker true :: ps.flatMap (fun p =>
        passCalls u p.1 (Call.amountOptControlMain p.1 u.orderBookDepth u.tradeAmt p.2))) ∧
    (∃ (new : List (Call TP)) (k : Nat) (last : List (List TP)), debugPaths n k last ∧
      (mainDebugMode c u ex r n).run.trace = r.trace ++ new ∧
      Replays c ex new r.world (mainDebugMode c u ex r n).run.world ∧
      coreCalls new = Call.pullAllTicker true :: (List.replicate k [] ++ last).flatMap
        (fun p => passCalls u p (Call.amountOptControlDebug p u.orderBookDepth u.tradeAmt))) ∧
    (∃ (new : List (Call TP)) (ps : List (List TP × List ℚ × ℚ)), ps.length = n ∧
      (mainTimeMode c u ex r n).run.trace = r.trace ++ new ∧
      Replays c ex new r.world (mainTimeMode c u ex r n).run.world ∧
      coreCalls new = Call.pullAllTicker true :: ps.flatMap (fun p =>
        passCalls u p.1
          (Call.amountOptControlTime p.1 u.orderBookDepth u.tradeAmt p.2.1 p.2.2))) := by
  refine ⟨?_, ?_, ?_⟩
  · obtain ⟨rest, ps, hlen, htr, hrep, hcore, -⟩ := mainArbOnly_run c u ex r n
    refine ⟨setupCalls ++ rest, ps, hlen, by rw [htr, List.append_assoc], hrep, ?_⟩
    rw [coreCalls_append, hcore, coreCalls_setup]
    rfl
  · obtain ⟨pre, post, rest, k, last, hdp, hpre, hpost, -, -, htr, hrep, hcore, -⟩ :=
      mainDebugMode_run c u ex r n
    refine ⟨pre ++ setupCalls ++ post ++ rest, k, last, hdp, ?_, hrep, ?_⟩
    · rw [htr]; simp only [List.append_assoc]
    · simp only [coreCalls_append, hcore, coreCalls_setup, coreCalls_of_output pre hpre,
        coreCalls_of_output post hpost]
      rfl
  · obtain ⟨rest, ps, hlen, htr, hrep, hcore, -⟩ := mainTimeMode_run c u ex r n
    refine ⟨setupCalls ++ rest, ps, hlen, by rw [htr, List.append_assoc], hrep, ?_⟩
    rw [coreCalls_append, hcore, coreCalls_setup]
    rfl

/-- C2. For every configuration and in all three modes, the calls a loop adds to the
trace were really made as the trace shows them (`Replays`), and the `ArbDetect` calls
among them are, in order, `ArbDetect(g, startCoin, 1 + lowerBound, 11/10, pathLen)`
(exact arithmetic), one per pass, each with the path it returned: the same arguments
whatever the mode. There are exactly `n` of them after `n` rounds of `mainArbOnly` and
of `mainTimeMode`; in `mainDebugMode` there are `k` that returned the empty path and
then, unless the `n` rounds are used up, one last that returned a path (`debugPaths`). -/
theorem arbDetect_gets_the_configured_arguments {W TP : Type} (c : Collab W TP)
    (u : UserInput) (ex : USet) (r : Run W TP) (n : Nat) :
    (∃ (new : List (Call TP)) (paths : List (List TP)), paths.length = n ∧
      (mainArbOnly c u ex r n).run.trace = r.trace ++ new ∧
      Replays c ex new r.world (mainArbOnly c u ex r n).run.world ∧
      new.filter Call.isArbDetect = paths.map (fun p =>
        Call.ArbDetect u.startCoin (1 + u.lowerBound) (11 / 10) u.pathLen p)) ∧
    (∃ (new : List (Call TP)) (k : Nat) (last : List (List TP)), debugPaths n k last ∧
      (mainDebugMode c u ex r n).run.trace = r.trace ++ new ∧
      Replays c ex new r.world (mainDebugMode c u ex r n).run.world ∧
      new.filter Call.isArbDetect = (List.replicate k [] ++ last).map (fun p =>
        Call.ArbDetect u.startCoin (1 + u.lowerBound) (11 / 10) u.pathLen p)) ∧
    (∃ (new : List (Call TP)) (paths : List (List TP)), paths.length = n ∧
      (mainTimeMode c u ex r n).run.trace = r.trace ++ new ∧
      Replays c ex new r.world (mainTimeMode c u ex r n).run.world ∧
      new.filter Call.isArbDetect = paths.map (fun p =>
        Call.ArbDetect u.startCoin (1 + u.lowerBound) (11 / 10) u.pathLen p)) := by
  have hpull : ([Call.pullAllTicker true] : List (Call TP)).filter Call.isArbDetect = [] := rfl
  refine ⟨?_, ?_, ?_⟩
  · obtain ⟨rest, ps, hlen, htr, hrep, hcore, -⟩ := mainArbOnly_run c u ex r n
    refine ⟨setupCalls ++ rest, ps.map (fun p => p.1), by simp [hlen],
      by rw [htr, List.append_assoc], hrep, ?_⟩
    rw [filter_coreCalls Call.isArbDetect isCore_of_isArbDetect, coreCalls_append, hcore,
      coreCalls_setup, List.filter_append, hpull, List.nil_append,
      filter_arbDetect_passCalls u ps (fun p => p.1)
        (fun p => Call.amountOptControlMain p.1 u.orderBookDepth u.tradeAmt p.2)
        (fun _ => rfl), List.map_map]
    rfl
  · obtain ⟨pre, post, rest, k, last, hdp, hpre, hpost, -, -, htr, hrep, hcore, -⟩ :=
      mainDebugMode_run c u ex r n
    refine ⟨pre ++ setupCalls ++ post ++ rest, k, last, hdp, ?_, hrep, ?_⟩
    · rw [htr]; simp only [List.append_assoc]
    · rw [filter_coreCalls Call.isArbDetect isCore_of_isArbDetect]
      simp only [coreCalls_append, hcore, coreCalls_setup, coreCalls_of_output pre hpre,
        coreCalls_of_output post hpost, List.nil_append, List.append_nil]
      rw [List.filter_append, hpull, List.nil_append,
        filter_arbDetect_passCalls u _ (fun p => p)
          (fun p => Call.amountOptControlDebug p u.orderBookDepth u.tradeAmt)
          (fun _ => rfl)]
  · obtain ⟨rest, ps, hlen, htr, hrep, hcore, -⟩ := mainTimeMode_run c u ex r n
    refine ⟨setupCalls ++ rest, ps.map (fun p => p.1), by simp [hlen],
      by rw [htr, List.append_assoc], hrep, ?_⟩
    rw [filter_coreCalls Call.isArbDetect isCore_of_isArbDetect, coreCalls_append, hcore,
      coreCalls_setup, List.filter_append, hpull, List.nil_append,
      filter_arbDetect_passCalls u ps (fun p => p.1)
        (fun p => Call.amountOptControlTime p.1 u.orderBookDepth u.tradeAmt p.2.1 p.2.2)
        (fun _ => rfl), List.map_map]
    rfl

theorem not_mem_setupCalls_of_isSetup {TP : Type} (e : Call TP)
    (h : Call.isSetup e = false) : e ∉ setupCalls := by
  intro hm
  simp only [setupCalls, List.mem_cons, List.mem_singleton, List.not_mem_nil, or_false] at hm
  rcases hm with rfl | rfl | rfl <;> cases h

theorem not_mem_setupCalls_of_isOutput {TP : Type} (e : Call TP)
    (h : Call.isOutput e = true) : e ∉ setupCalls := by
  intro hm
  simp only [setupCalls, List.mem_cons, List.mem_singleton, List.not_mem_nil, or_false] at hm
  rcases hm with rfl | rfl | rfl <;> cases h

/-- C7, as amended. In every mode the three set-up calls `pullAllTicker(..., true, ...)`,
`symbolHashMapResize` and `seenSymbols.clear()` are made exactly once, one right after
the other and in this order, before the first pass: the trace with no pass run ends with
them (in `mainDebugMode` followed by console output only), what the passes add contains
no full refresh, no pruning and no clearing, and the whole is the exact record of the
calls made on the world (`Replays`), so no other refresh or pruning is applied. The
passes add one refresh each, all of them non-full: `n` in `n` rounds of `mainArbOnly`
and `mainTimeMode`, one per pass made in `mainDebugMode`. The set-up calls are the first
calls of `mainArbOnly` and of `mainTimeMode`; in `mainDebugMode` they are not: console
output (the settings banner, `printStars` and `cout`), and nothing else, comes before
them. -/
theorem graph_is_set_up_once_before_the_first_pass {W TP : Type} (c : Collab W TP)
    (u : UserInput) (ex : USet) (r : Run W TP) (n : Nat) :
    ((mainArbOnly c u ex r 0).run.trace = r.trace ++ setupCalls ∧
      ∃ rest, (mainArbOnly c u ex r n).run.trace = r.trace ++ setupCalls ++ rest ∧
        Replays c ex (setupCalls ++ rest) r.world (mainArbOnly c u ex r n).run.world ∧
        (∀ e ∈ rest, e ∉ setupCalls) ∧
        (rest.filter Call.isRefresh).length = n) ∧
    ((mainTimeMode c u ex r 0).run.trace = r.trace ++ setupCalls ∧
      ∃ rest, (mainTimeMode c u ex r n).run.trace = r.trace ++ setupCalls ++ rest ∧
        Replays c ex (setupCalls ++ rest) r.world (mainTimeMode c u ex r n).run.world ∧
        (∀ e ∈ rest, e ∉ setupCalls) ∧
        (rest.filter Call.isRefresh).length = n) ∧
    (∃ pre post, pre ≠ [] ∧
      (∀ e ∈ pre, Call.isOutput e = true ∧ e ∉ setupCalls) ∧
      (∀ e ∈ post, Call.isOutput e = true ∧ e ∉ setupCalls) ∧
      (mainDebugMode c u ex r 0).run.trace = r.trace ++ pre ++ setupCalls ++ post ∧
      ∃ (rest : List (Call TP)) (k : Nat) (last : List (List TP)), debugPaths n k last ∧
        (mainDebugMode c u ex r n).run.trace
          = r.trace ++ pre ++ setupCalls ++ post ++ rest ∧
        Replays c ex (pre ++ setupCalls ++ post ++ rest) r.world
          (mainDebugMode c u ex r n).run.world ∧
        (∀ e ∈ rest, e ∉ setupCalls) ∧
        (rest.filter Call.isRefresh).length = k + last.length) := by
  refine ⟨⟨rfl, ?_⟩, ⟨rfl, ?_⟩, ?_⟩
  · obtain ⟨rest, ps, hlen, htr, hrep, hcore, hset⟩ := mainArbOnly_run c u ex r n
    refine ⟨rest, htr, hrep, fun e he => not_mem_setupCalls_of_isSetup e (hset e he), ?_⟩
    rw [filter_coreCalls Call.isRefresh isCore_of_isRefresh, hcore,
      count_refresh_passCalls u ps (fun p => p.1)
        (fun p => Call.amountOptControlMain p.1 u.orderBookDepth u.tradeAmt p.2)
        (fun _ => rfl), hlen]
  · obtain ⟨rest, ps, hlen, htr, hrep, hcore, hset⟩ := mainTimeMode_run c u ex r n
    refine ⟨rest, htr, hrep, fun e he => not_mem_setupCalls_of_isSetup e (hset e he), ?_⟩
    rw [filter_coreCalls Call.isRefresh isCore_of_isRefresh, hcore,
      count_refresh_passCalls u ps (fun p => p.1)
        (fun p => Call.amountOptControlTime p.1 u.orderBookDepth u.tradeAmt p.2.1 p.2.2)
        (fun _ => rfl), hlen]
  · obtain ⟨pre, post, rest, k, last, hdp, hpre, hpost, hne, h0, htr, hrep, hcore, hset⟩ :=
      mainDebugMode_run c u ex r n
    refine ⟨pre, post, hne,
      fun e he => ⟨hpre e he, not_mem_setupCalls_of_isOutput e (hpre e he)⟩,
      fun e he => ⟨hpost e he, not_mem_setupCalls_of_isOutput e (hpost e he)⟩,
      h0, rest, k, last, hdp, htr, hrep,
      fun e he => not_mem_setupCalls_of_isSetup e (hset e he), ?_⟩
    rw [filter_coreCalls Call.isRefresh isCore_of_isRefresh, hcore,
      count_refresh_passCalls u _ (fun p => p)
        (fun p => Call.amountOptControlDebug p u.orderBookDepth u.tradeAmt)
        (fun _ => rfl)]
    simp

theorem mainArbOnly_step {W TP : Type} (c : Collab W TP) (u : UserInput) (ex : USet)
    (r : Run W TP) (n : Nat) :
    mainArbOnly c u ex r (n + 1) = arbOnlyPass c u ex (mainArbOnly c u ex r n) := rfl

/-- What one round of `mainArbOnly` adds to the logged values, the sizing results and
the detected paths. -/
theorem arbOnlyPass_record {W TP : Type} (c : Collab W TP) (u : UserInput) (ex : USet)
    (s : ArbOnlyState W TP) :
    loggedProfits (arbOnlyPass c u ex s).run.trace
      = loggedProfits s.run.trace ++ [(arbOnlyPass c u ex s).profitability] ∧
    detectedPaths (arbOnlyPass c u ex s).run.trace
      = detectedPaths s.run.trace ++ [(arbOnlyPass c u ex s).arbPath] ∧
    ((arbOnlyPass c u ex s).arbPath = [] →
      (arbOnlyPass c u ex s).profitability = s.profitability ∧
      sizingResults (arbOnlyPass c u ex s).run.trace = sizingResults s.run.trace) ∧
    ((arbOnlyPass c u ex s).arbPath ≠ [] → ∃ q : ℚ,
      (arbOnlyPass c u ex s).profitability = some q ∧
      sizingResults (arbOnlyPass c u ex s).run.trace = sizingResults s.run.trace ++ [q]) := by
  obtain ⟨q, n1, n2, n3, n4, htr, hpos, hneg⟩ := arbOnlyPass_trace c u ex s
  refine ⟨?_, ?_, ?_, ?_⟩
  · rw [htr]
    simp only [loggedProfits, List.filterMap_append]
    split <;> simp [List.filterMap_cons]
  · rw [htr]
    simp only [detectedPaths, List.filterMap_append]
    split <;> simp [List.filterMap_cons]
  · intro hp
    have hlen : ¬ (arbOnlyPass c u ex s).arbPath.length > 0 := by rw [hp]; simp
    refine ⟨hneg hlen, ?_⟩
    rw [htr, if_neg hlen]
    simp [sizingResults, List.filterMap_cons]
  · intro hp
    have hlen : (arbOnlyPass c u ex s).arbPath.length > 0 := List.length_pos.mpr hp
    refine ⟨q, hpos hlen, ?_⟩
    rw [htr, if_pos hlen]
    simp [sizingResults, List.filterMap_cons]

theorem mainArbOnly_profitability {W TP : Type} (c : Collab W TP) (u : UserInput) (ex : USet)
    (w : W) (n : Nat) :
    (mainArbOnly c u ex (Run.mk w []) n).profitability
      = (sizingResults (mainArbOnly c u ex (Run.mk w []) n).run.trace).getLast? ∧
    (loggedProfits (mainArbOnly c u ex (Run.mk w []) n).run.trace).length = n := by
  induction n with
  | zero => exact ⟨rfl, rfl⟩
  | succ n ih =>
    obtain ⟨h1, -, h3, h4⟩ := arbOnlyPass_record c u ex (mainArbOnly c u ex (Run.mk w []) n)
    rw [mainArbOnly_step]
    constructor
    · by_cases hp : (arbOnlyPass c u ex (mainArbOnly c u ex (Run.mk w []) n)).arbPath = []
      · rw [(h3 hp).1, (h3 hp).2]; exact ih.1
      · obtain ⟨q, hq1, hq2⟩ := h4 hp
        rw [hq1, hq2]; simp
    · rw [h1]; simp [ih.2]

/-- C9. In `mainArbOnly`, pass `n + 1` hands `LogArbInfo` the value of `profitability`
at the end of that pass. When `ArbDetect` returned the empty path in the pass, the
variable is what it was after pass `n`, no sizing result is added, and (when there is a
preceding pass) the value logged equals the value logged in the preceding pass. When the
path is not empty the variable is the sizing result of the pass. At every point the
variable is the most recent sizing result (`none`, never assigned, while no cycle has
been found). -/
theorem profitability_unchanged_when_no_cycle {W TP : Type} (c : Collab W TP)
    (u : UserInput) (ex : USet) (w : W) (n : Nat) :
    loggedProfits (mainArbOnly c u ex (Run.mk w []) (n + 1)).run.trace
      = loggedProfits (mainArbOnly c u ex (Run.mk w []) n).run.trace
        ++ [(mainArbOnly c u ex (Run.mk w []) (n + 1)).profitability] ∧
    detectedPaths (mainArbOnly c u ex (Run.mk w []) (n + 1)).run.trace
      = detectedPaths (mainArbOnly c u ex (Run.mk w []) n).run.trace
        ++ [(mainArbOnly c u ex (Run.mk w []) (n + 1)).arbPath] ∧
    ((mainArbOnly c u ex (Run.mk w []) (n + 1)).arbPath = [] →
      (mainArbOnly c u ex (Run.mk w []) (n + 1)).profitability
        = (mainArbOnly c u ex (Run.mk w []) n).profitability ∧
      sizingResults (mainArbOnly c u ex (Run.mk w []) (n + 1)).run.trace
        = sizingResults (mainArbOnly c u ex (Run.mk w []) n).run.trace ∧
      (0 < n → (loggedProfits (mainArbOnly c u ex (Run.mk w []) (n + 1)).run.trace).getLast?
        = (loggedProfits (mainArbOnly c u ex (Run.mk w []) n).run.trace).getLast?)) ∧
    ((mainArbOnly c u ex (Run.mk w []) (n + 1)).arbPath ≠ [] → ∃ q : ℚ,
      (mainArbOnly c u ex (Run.mk w []) (n + 1)).profitability = some q ∧
      sizingResults (mainArbOnly c u ex (Run.mk w []) (n + 1)).run.trace
        = sizingResults (mainArbOnly c u ex (Run.mk w []) n).run.trace ++ [q]) ∧
    (mainArbOnly c u ex (Run.mk w []) n).profitability
      = (sizingResults (mainArbOnly c u ex (Run.mk w []) n).run.trace).getLast? := by
  obtain ⟨h1, h2, h3, h4⟩ := arbOnlyPass_record c u ex (mainArbOnly c u ex (Run.mk w []) n)
  rw [mainArbOnly_step]
  refine ⟨h1, h2, ?_, h4, (mainArbOnly_profitability c u ex w n).1⟩
  intro hp
  refine ⟨(h3 hp).1, (h3 hp).2, ?_⟩
  intro hn
  rw [h1, (h3 hp).1]
  obtain ⟨m, rfl⟩ : ∃ m, n = m + 1 := ⟨n - 1, by omega⟩
  obtain ⟨g1, -, -, -⟩ := arbOnlyPass_record c u ex (mainArbOnly c u ex (Run.mk w []) m)
  rw [mainArbOnly_step, g1]
  simp

theorem at0_ok_head (s : Str) (ch : Char) (h : at0 s = Except.ok ch) :
    s ≠ [] ∧ s.head? = some ch := by
  cases s with
  | nil => cases h
  | cons x xs =>
    simp only [at0] at h
    injection h with h
    subst h
    exact ⟨List.cons_ne_nil _ _, rfl⟩

/-- The sizing calls of a trace whose core calls are those of a run of passes. -/
theorem sizing_of_core {TP α : Type} (u : UserInput) (t : List (Call TP))
    (ps : List α) (path : α → List TP) (sizing : α → Call TP) (loop : Loop)
    (hs : ∀ p, Call.sizingVariant (sizing p) = some loop)
    (ht : coreCalls t = Call.pullAllTicker true ::
      ps.flatMap (fun p => passCalls u (path p) (sizing p))) :
    ∀ e ∈ t, ∀ l, Call.sizingVariant e = some l → l = loop := by
  intro e he l hl
  have hcore : Call.isCore e = true := by
    cases e <;> first | rfl | cases hl
  have hc : e ∈ coreCalls t := (mem_coreCalls t e).mpr ⟨he, hcore⟩
  rw [ht] at hc
  rcases List.mem_cons.mp hc with hc | hc
  · rw [hc] at hl; cases hl
  · rcases mem_passCalls_flatMap u ps path sizing e hc with h | ⟨p, _, h⟩ | ⟨p, _, h⟩
    · rw [h] at hl; cases hl
    · rw [h] at hl; cases hl
    · rw [h, hs p] at hl
      injection hl with hl
      exact hl.symm

/-- C8. When the settings load, `main` runs one loop function, on the exchange set
`removeExchanges` returns. It is `mainDebugMode` exactly when the debugMode value starts
with `1`, whatever timeMode is; `mainTimeMode` exactly when debugMode does not start with
`1` and timeMode does; `mainArbOnly` exactly when neither does. Every sizing call of the
run is the variant of that loop. Neither flag value of a loaded file is empty (an empty
flag makes loading fail). -/
theorem main_runs_the_loop_the_flags_select {W TP : Type} (stod : Str → Except StdError ℚ)
    (c : Collab W TP) (file : Str) (w : W) (passes : Nat) (u : UserInput)
    (h : parseUserSettings stod file = Except.ok u) :
    (buildValues (readLines file)).get kDebugMode ≠ [] ∧
    (buildValues (readLines file)).get kTimeMode ≠ [] ∧
    ∃ (loop : Loop) (run : Run W TP) (ex : USet),
      removeExchanges u.exchangeRemove = some ex ∧
      main stod c file w passes = Except.ok (loop, run) ∧
      (loop = Loop.mainDebugMode ↔
        ((buildValues (readLines file)).get kDebugMode).head? = some '1') ∧
      (loop = Loop.mainTimeMode ↔
        ((buildValues (readLines file)).get kDebugMode).head? ≠ some '1' ∧
        ((buildValues (readLines file)).get kTimeMode).head? = some '1') ∧
      (loop = Loop.mainArbOnly ↔
        ((buildValues (readLines file)).get kDebugMode).head? ≠ some '1' ∧
        ((buildValues (readLines file)).get kTimeMode).head? ≠ some '1') ∧
      (loop = Loop.mainDebugMode →
        run = (mainDebugMode c u ex (mainStart c w) passes).run) ∧
      (loop = Loop.mainTimeMode →
        run = (mainTimeMode c u ex (mainStart c w) passes).run) ∧
      (loop = Loop.mainArbOnly →
        run = (mainArbOnly c u ex (mainStart c w) passes).run) ∧
      (∀ e ∈ run.trace, ∀ l, Call.sizingVariant e = some l → l = loop) := by
  have hu := h
  unfold parseUserSettings at hu
  rw [fillUserInput_ok_iff] at hu
  obtain ⟨-, -, -, -, -, -, -, ⟨d, hd, hdm⟩, ⟨t, ht, htm⟩, -⟩ := hu
  obtain ⟨hd1, hd2⟩ := at0_ok_head _ _ hd
  obtain ⟨ht1, ht2⟩ := at0_ok_head _ _ ht
  refine ⟨hd1, ht1, ?_⟩
  obtain ⟨ex, hex⟩ : ∃ ex, removeExchanges u.exchangeRemove = some ex :=
    ⟨_, removeExchanges_eq u.exchangeRemove⟩
  obtain ⟨⟨ps1, -, h1⟩, ⟨ps2, -, h2⟩, ⟨ps3, -, h3⟩⟩ := loops_core c u ex (mainStart c w) passes
  have e0 : coreCalls (mainStart c w).trace = [] := rfl
  simp only [e0, List.nil_append] at h1 h2 h3
  rw [hd2, ht2]
  by_cases hdb : d = '1'
  · have hsel : selectLoop u = Loop.mainDebugMode := by simp [selectLoop, hdm, hdb]
    refine ⟨Loop.mainDebugMode, (mainDebugMode c u ex (mainStart c w) passes).run, ex, hex,
      by simp [main, h, hex, hsel], ?_⟩
    refine ⟨by simp [hdb], by simp [hdb], by simp [hdb], fun _ => rfl, by simp, by simp, ?_⟩
    exact sizing_of_core u _ ps2 _ _ _ (by intro _; rfl) h2
  · by_cases htb : t = '1'
    · have hsel : selectLoop u = Loop.mainTimeMode := by simp [selectLoop, hdm, hdb, htm, htb]
      refine ⟨Loop.mainTimeMode, (mainTimeMode c u ex (mainStart c w) passes).run, ex, hex,
        by simp [main, h, hex, hsel], ?_⟩
      refine ⟨by simp [hdb], by simp [hdb, htb], by simp [htb], by simp, fun _ => rfl,
        by simp, ?_⟩
      exact sizing_of_core u _ ps3 _ _ _ (by intro _; rfl) h3
    · have hsel : selectLoop u = Loop.mainArbOnly := by simp [selectLoop, hdm, hdb, htm, htb]
      refine ⟨Loop.mainArbOnly, (mainArbOnly c u ex (mainStart c w) passes).run, ex, hex,
        by simp [main, h, hex, hsel], ?_⟩
      refine ⟨by simp [hdb], by simp [htb], by simp [hdb, htb], by simp, by simp,
        fun _ => rfl, ?_⟩
      exact sizing_of_core u _ ps1 _ _ _ (by intro _; rfl) h1

set_option maxRecDepth 100000 in
/-- C8, a concrete run: with both flags set `main` enters `mainDebugMode`. -/
theorem main_runs_the_loop_the_flags_select_witness :
    parseUserSettings decimalStod fileBothFlags = Except.ok loadedBothFlags ∧
    ∃ run, main decimalStod demoCollab fileBothFlags 0 4
      = Except.ok (Loop.mainDebugMode, run) :=
  ⟨by decide!, by
    obtain ⟨_, _, loop, run, ex, _, hm, hdbg, _⟩ :=
      main_runs_the_loop_the_flags_select decimalStod demoCollab fileBothFlags 0 4
        loadedBothFlags (by decide!)
    have hl : loop = Loop.mainDebugMode := hdbg.mpr (by decide)
    subst hl
    exact ⟨run, hm⟩⟩

theorem getline_rest_lt (file : Str) (d : Char) (h : file ≠ []) :
    (getline file d).2.length < file.length := by
  have h1 : (file.dropWhile (fun c => !decide (c = d))).length ≤ file.length :=
    (List.dropWhile_sublist _).length_le
  have h2 : 0 < file.length := List.length_pos.mpr h
  simp only [getline, List.length_drop]
  omega

theorem readLinesFuel_eq (n : Nat) : ∀ (m : Nat) (file : Str),
    file.length ≤ n → file.length ≤ m → readLinesFuel n file = readLinesFuel m file := by
  induction n with
  | zero =>
    intro m file hn _
    have : file = [] := List.length_eq_zero.mp (by omega)
    subst this
    cases m <;> simp [readLinesFuel]
  | succ n ih =>
    intro m file hn hm
    by_cases hf : file = []
    · subst hf
      cases m <;> simp [readLinesFuel]
    · have hlt := getline_rest_lt file '\n' hf
      cases m with
      | zero => exact absurd (List.length_eq_zero.mp (by omega)) hf
      | succ m =>
        simp only [readLinesFuel, hf, if_false]
        rw [ih m _ (by omega) (by omega)]

/-- The rounds given to the reading loop are enough: more rounds read the same lines. -/
theorem readLinesFuel_enough (fuel : Nat) (file : Str) (h : file.length ≤ fuel) :
    readLinesFuel fuel file = readLines file :=
  readLinesFuel_eq fuel file.length file h (le_refl _)

/-- C1, a concrete run of two passes of `mainArbOnly`: a cycle in the first, none in the
second. -/
theorem each_pass_refreshes_then_searches_then_sizes_witness :
    coreCalls (mainArbOnly blinkCollab loadedComplete [] (Run.mk 0 []) 2).run.trace =
      [Call.pullAllTicker true,
       Call.pullAllTicker false,
       Call.ArbDetect "USDT".toList (201 / 200) (11 / 10) 3 [1, 2, 3],
       Call.amountOptControlMain [1, 2, 3] 20 100 2,
       Call.pullAllTicker false,
       Call.ArbDetect "USDT".toList (201 / 200) (11 / 10) 3 []] ∧
    (mainArbOnly blinkCollab loadedComplete [] (Run.mk 0 []) 2).run.world = 3 ∧
    ∃ (new : List (Call Nat)) (ps : List (List Nat × ℚ)), ps.length = 2 ∧
      (mainArbOnly blinkCollab loadedComplete [] (Run.mk 0 []) 2).run.trace = [] ++ new ∧
      Replays blinkCollab [] new 0
        (mainArbOnly blinkCollab loadedComplete [] (Run.mk 0 []) 2).run.world ∧
      coreCalls new = Call.pullAllTicker true :: ps.flatMap (fun p =>
        passCalls loadedComplete p.1 (Call.amountOptControlMain p.1
          loadedComplete.orderBookDepth loadedComplete.tradeAmt p.2)) :=
  ⟨by decide!, by decide!,
   (each_pass_refreshes_then_searches_then_sizes blinkCollab loadedComplete []
     (Run.mk 0 []) 2).1⟩

/-- C2, a concrete run: the searches of two passes of `mainTimeMode`. -/
theorem arbDetect_gets_the_configured_arguments_witness :
    (mainTimeMode blinkCollab loadedComplete [] (Run.mk 0 []) 2).run.trace.filter
        Call.isArbDetect =
      [Call.ArbDetect "USDT".toList (201 / 200) (11 / 10) 3 [1, 2, 3],
       Call.ArbDetect "USDT".toList (201 / 200) (11 / 10) 3 []] ∧
    ∃ (new : List (Call Nat)) (paths : List (List Nat)), paths.length = 2 ∧
      (mainTimeMode blinkCollab loadedComplete [] (Run.mk 0 []) 2).run.trace = [] ++ new ∧
      Replays blinkCollab [] new 0
        (mainTimeMode blinkCollab loadedComplete [] (Run.mk 0 []) 2).run.world ∧
      new.filter Call.isArbDetect = paths.map (fun p =>
        Call.ArbDetect loadedComplete.startCoin (1 + loadedComplete.lowerBound) (11 / 10)
          loadedComplete.pathLen p) :=
  ⟨by decide!,
   (arbDetect_gets_the_configured_arguments blinkCollab loadedComplete []
     (Run.mk 0 []) 2).2.2⟩

/-- C7, a concrete run: the first calls of `mainTimeMode`, two passes run, and the world
reached (one full and two non-full refreshes). -/
theorem graph_is_set_up_once_before_the_first_pass_witness :
    (mainTimeMode blinkCollab loadedComplete [] (Run.mk 0 []) 2).run.trace.take 4 =
      [Call.pullAllTicker true, Call.symbolHashMapResize, Call.seenSymbolsClear,
       Call.clockNow 0] ∧
    (mainTimeMode blinkCollab loadedComplete [] (Run.mk 0 []) 2).run.trace.filter
        Call.isSetup = setupCalls ∧
    (mainTimeMode blinkCollab loadedComplete [] (Run.mk 0 []) 2).run.world = 3 ∧
    (mainTimeMode blinkCollab loadedComplete [] (Run.mk 0 []) 0).run.trace
      = [] ++ setupCalls :=
  ⟨by decide!, by decide!, by decide!,
   (graph_is_set_up_once_before_the_first_pass blinkCollab loadedComplete []
     (Run.mk 0 []) 2).2.1.1⟩

/-- C7 fails as stated for `mainDebugMode`: the full refresh is not its first call. The
first call is `printStars`, and the fourteen calls before the full refresh are all
console output. -/
theorem debug_mode_prints_before_the_full_refresh :
    (mainDebugMode blinkCollab loadedComplete [] (Run.mk 0 []) 0).run.trace.head?
      = some Call.printStars ∧
    ((mainDebugMode blinkCollab loadedComplete [] (Run.mk 0 []) 0).run.trace.take 14).all
      Call.isOutput = true ∧
    ((mainDebugMode blinkCollab loadedComplete [] (Run.mk 0 []) 0).run.trace.drop 14).take 3
      = [Call.pullAllTicker true, Call.symbolHashMapResize, Call.seenSymbolsClear] := by
  refine ⟨by decide!, by decide!, by decide!⟩

/-- C9, a concrete run: the second pass finds no cycle and logs the sizing result of the
first. -/
theorem profitability_unchanged_when_no_cycle_witness :
    (mainArbOnly blinkCollab loadedComplete [] (Run.mk 0 []) 2).arbPath = [] ∧
    loggedProfits (mainArbOnly blinkCollab loadedComplete [] (Run.mk 0 []) 2).run.trace
      = [some 2, some 2] ∧
    (mainArbOnly blinkCollab loadedComplete [] (Run.mk 0 []) 2).profitability
      = (mainArbOnly blinkCollab loadedComplete [] (Run.mk 0 []) 1).profitability :=
  ⟨by decide!, by decide!,
   ((profitability_unchanged_when_no_cycle blinkCollab loadedComplete [] 0 1).2.2.1
     (by decide!)).1⟩

end Framework
